import Mathlib

/-!
# Verification of the Silly Sums arithmetic game core (src/game.js)

Shallow embedding of the game logic in `src/game.js`: the session state
machine (`checkAnswer`, `resetGame`, `toggleTimer`, `toggleMultiplayer`,
timer ticks), the problem generator (`generateNumber`,
`generateNewProblem`, `generateOptions`), the achievement evaluator
(`checkAchievements` / `awardAchievement`) and the leaderboard store
(`updateLeaderboard` / `displayLeaderboard`, persisted as JSON text).

JavaScript numbers are modelled as `Int` where the program only ever
stores integers (scores, counters, operands) and as `Rat` where genuine
division or fractional time occurs (`totalTime`, correct answers,
`Math.random()` draws).  `Math.round` is `jsRound`, i.e. round half up.
`localStorage` is a record of `Option String` fields, one per key the
program uses.  Timer intervals are modelled by Bool flags (an interval
reference being set/cleared) plus explicit tick transitions.
-/

namespace SillySums

/-- The four arithmetic operations (game.js `currentOperation` values). -/
inductive Operation where
  | addition
  | subtraction
  | multiplication
  | division
deriving DecidableEq, Repr

/-- The three difficulty levels (game.js `currentDifficulty` values). -/
inductive Difficulty where
  | easy
  | medium
  | hard
deriving DecidableEq, Repr

/-- Model of `difficultyRanges` (game.js lines 65-69): inclusive `(min, max)` per level. -/
def difficultyRanges : Difficulty → Int × Int
  | .easy => (1, 10)
  | .medium => (10, 25)
  | .hard => (25, 100)

/-- JavaScript `Math.round`: round half toward positive infinity. -/
def jsRound (q : Rat) : Int := ⌊q + 1/2⌋

/-- The free-standing mutable game variables of game.js (lines 11-27).
`timerIntervalSet` / `multiplayerIntervalSet` model whether the
corresponding `setInterval` reference is live (cleared by
`clearInterval`).  `questionsStartTime` is not modelled: the elapsed
time of a question is passed to `checkAnswer` explicitly. -/
structure GameState where
  currentOperation : Operation
  currentDifficulty : Difficulty
  score : Int
  streak : Int
  totalAttempts : Int
  timerActive : Bool
  timeRemaining : Int
  timerIntervalSet : Bool
  isMultiplayer : Bool
  currentPlayer : Int
  p1Score : Int
  p2Score : Int
  totalTime : Rat
  isMultiplayerRound : Bool
  multiplayerTimer : Int
  multiplayerIntervalSet : Bool
deriving DecidableEq, Repr

/-- The initial values of the game variables (game.js lines 11-27). -/
def initGameState : GameState where
  currentOperation := .addition
  currentDifficulty := .easy
  score := 0
  streak := 0
  totalAttempts := 0
  timerActive := false
  timeRemaining := 30
  timerIntervalSet := false
  isMultiplayer := false
  currentPlayer := 1
  p1Score := 0
  p2Score := 0
  totalTime := 0
  isMultiplayerRound := false
  multiplayerTimer := 15
  multiplayerIntervalSet := false

/-- Model of `checkAnswer(selected, correct)` (game.js lines 366-396), state part.
The elapsed seconds `(Date.now() - questionsStartTime) / 1000` are the
explicit argument `elapsed`.  The trailing calls (`showFeedback`,
`updateStats`, `checkAchievements`, `updateReportData`,
`generateNewProblem`) render, report, or produce the next problem; none
of them mutates the variables of `GameState`, so the state transition is
exactly this function. -/
def checkAnswer (g : GameState) (selected correct elapsed : Rat) : GameState :=
  let g := { g with
    totalAttempts := g.totalAttempts + 1
    totalTime := g.totalTime + elapsed }
  if selected = correct then
    let g := { g with score := g.score + 1, streak := g.streak + 1 }
    if g.isMultiplayerRound then
      if g.currentPlayer = 1 then
        { g with p1Score := g.p1Score + 1 }
      else
        { g with p2Score := g.p2Score + 1 }
    else g
  else
    { g with streak := 0 }

/-- Model of `resetGame()` (game.js lines 591-607), state part: the eight
assignments plus `clearInterval(multiplayerInterval)`.  The trailing
`updateStats` / `updateReportData` / `updateMultiplayerScores` /
`generateNewProblem` calls only render, persist derived stats, and draw
a fresh problem; they do not mutate the variables of `GameState`. -/
def resetGame (g : GameState) : GameState :=
  { g with
    score := 0
    streak := 0
    totalAttempts := 0
    p1Score := 0
    p2Score := 0
    currentPlayer := 1
    totalTime := 0
    isMultiplayerRound := false
    multiplayerIntervalSet := false }

/-- Model of `toggleTimer()` (game.js lines 411-430), synchronous part: flips
`timerActive`; on enabling it zeroes only `score`, sets
`timeRemaining = 30` and starts the interval; on disabling it clears
the interval (and prints "Timer Off"). -/
def toggleTimer (g : GameState) : GameState :=
  let g := { g with timerActive := !g.timerActive }
  if g.timerActive then
    { g with score := 0, timeRemaining := 30, timerIntervalSet := true }
  else
    { g with timerIntervalSet := false }

/-- Model of `startPlayerTurn()` (game.js lines 497-511), synchronous part:
15-second per-turn timer, round flag on, interval started. -/
def startPlayerTurn (g : GameState) : GameState :=
  { g with multiplayerTimer := 15, isMultiplayerRound := true, multiplayerIntervalSet := true }

/-- Model of `startMultiplayerRound()` (game.js lines 481-491), synchronous part:
`resetGame()` then player / p1 / p2 reinitialised; the countdown then
invokes `startPlayerTurn` asynchronously. -/
def startMultiplayerRound (g : GameState) : GameState :=
  let g := resetGame g
  { g with currentPlayer := 1, p1Score := 0, p2Score := 0 }

/-- Model of `toggleMultiplayer()` (game.js lines 462-476): flips `isMultiplayer`;
on entry starts a multiplayer round, on exit clears the multiplayer
interval and calls `resetGame()`. -/
def toggleMultiplayer (g : GameState) : GameState :=
  let g := { g with isMultiplayer := !g.isMultiplayer }
  if g.isMultiplayer then
    startMultiplayerRound g
  else
    resetGame { g with multiplayerIntervalSet := false }

/-- Model of `announceWinner()` (game.js lines 558-586), state part: after the
announcement delay, multiplayer mode is exited and `resetGame()` runs.
The winner comparison and the confetti condition are returned alongside
(confetti fires exactly when the scores differ). -/
def announceWinner (g : GameState) : GameState :=
  resetGame { g with isMultiplayer := false }

/-- Model of `handleTurnEnd()` (game.js lines 532-553), state part: after player
1's turn, switch to player 2 (countdown and `startPlayerTurn` follow
asynchronously); after player 2's turn, announce the winner. -/
def handleTurnEnd (g : GameState) : GameState :=
  if g.currentPlayer = 1 then
    { g with currentPlayer := 2 }
  else
    announceWinner g

/-- Model of `setOperation(operation)` (game.js lines 231-239), state part. -/
def setOperation (g : GameState) (op : Operation) : GameState :=
  { g with currentOperation := op }

/-- Model of `setDifficulty(difficulty)` (game.js lines 245-252), state part. -/
def setDifficulty (g : GameState) (d : Difficulty) : GameState :=
  { g with currentDifficulty := d }

/-! ## Derived statistics (`updateReportData`, game.js lines 217-225) -/

/-- The accuracy percentage persisted by `updateReportData`:
`totalAttempts > 0 ? Math.round((score / totalAttempts) * 100) : 0`. -/
def accuracyPercent (g : GameState) : Int :=
  if g.totalAttempts > 0 then jsRound ((g.score : Rat) / (g.totalAttempts : Rat) * 100) else 0

/-- The average seconds per question persisted by `updateReportData`:
`totalAttempts > 0 ? Math.round(totalTime / totalAttempts) : 0`. -/
def averageTimeSeconds (g : GameState) : Int :=
  if g.totalAttempts > 0 then jsRound (g.totalTime / (g.totalAttempts : Rat)) else 0

/-! ## Persistence (`localStorage` keys used by game.js) -/

/-- The `localStorage` key-value store, one field per key the program
writes: `currentPlayer`, `leaderboard` (JSON text), and the derived
report fields of `updateReportData`. -/
structure Storage where
  currentPlayer : Option String
  leaderboard : Option String
  accuracy : Option String
  questionsSolved : Option String
  avgTime : Option String
deriving DecidableEq, Repr

/-- A store with nothing persisted yet. -/
def emptyStorage : Storage :=
  ⟨none, none, none, none, none⟩

/-- The store after writing the leaderboard key. -/
def withLB (s : Storage) (str : String) : Storage :=
  { s with leaderboard := some str }

/-- Model of `updateReportData()` (game.js lines 217-225): persists the guarded
accuracy / solved-count / average-time strings. -/
def updateReportData (g : GameState) (s : Storage) : Storage :=
  { s with
    accuracy := some (toString (accuracyPercent g) ++ "%")
    questionsSolved := some (toString g.totalAttempts)
    avgTime := some (toString (averageTimeSeconds g) ++ "s") }

/-! ## Problem generator (game.js lines 258-313) -/

/-- Model of `generateNumber()` (game.js lines 258-261):
`Math.floor(Math.random() * (range.max - range.min + 1)) + range.min`,
with the `Math.random()` draw `q ∈ [0,1)` passed explicitly. -/
def generateNumber (d : Difficulty) (q : Rat) : Int :=
  let range := difficultyRanges d
  ⌊q * ((range.2 : Rat) - (range.1 : Rat) + 1)⌋ + range.1

/-- A generated problem: the two operands shown and the correct answer
(a JavaScript number, exact only for division). -/
structure Problem where
  operand1 : Int
  operand2 : Int
  correctAnswer : Rat
deriving DecidableEq, Repr

/-- Model of `calculateAnswer(num1, num2)` (game.js lines 306-313). -/
def calculateAnswer (op : Operation) (num1 num2 : Int) : Rat :=
  match op with
  | .addition => (num1 : Rat) + (num2 : Rat)
  | .subtraction => (num1 : Rat) - (num2 : Rat)
  | .multiplication => (num1 : Rat) * (num2 : Rat)
  | .division => (num1 : Rat) / (num2 : Rat)

/-- Model of `generateNewProblem()` (game.js lines 266-285), problem part: two
draws from the difficulty range; for division `num1` is replaced by
`num1 * num2` so the quotient is exact.  The two `Math.random()` draws
are the explicit arguments `q1 q2`. -/
def generateNewProblem (op : Operation) (d : Difficulty) (q1 q2 : Rat) : Problem :=
  let num1 := generateNumber d q1
  let num2 := generateNumber d q2
  if op = .division then
    { operand1 := num1 * num2, operand2 := num2
      correctAnswer := ((num1 * num2 : Int) : Rat) / (num2 : Rat) }
  else
    { operand1 := num1, operand2 := num2
      correctAnswer := calculateAnswer op num1 num2 }

/-! ## Answer-submission sequences (for the streak invariant) -/

/-- One `checkAnswer` invocation: the selected option, the correct
answer, and the elapsed seconds for the question. -/
structure Submission where
  selected : Rat
  correct : Rat
  elapsed : Rat
deriving DecidableEq, Repr

/-- Fold a sequence of `checkAnswer` calls over the game state. -/
def submitAll (g : GameState) (l : List Submission) : GameState :=
  l.foldl (fun g x => checkAnswer g x.selected x.correct x.elapsed) g

/-- The length of the trailing run of correct answers of a submission
sequence: the number of consecutive correct answers since the last
incorrect one. -/
def trailingCorrect (l : List Submission) : Nat :=
  (l.reverse.takeWhile (fun x => x.selected == x.correct)).length

/-! ## Leaderboard store (game.js lines 774-840)

`updateLeaderboard` keeps the persisted collection as JSON text:
`JSON.parse(localStorage.getItem('leaderboard') || '[]')`, push, sort by
`(a, b) => b.score - a.score` (JavaScript `Array.prototype.sort` is
stable), `slice(0, 5)`, `JSON.stringify`.  The sort is modelled by a
stable insertion sort, which on any consistent comparator computes the
same list as every stable sort. -/

/-- A persisted leaderboard entry `{name, score}`. -/
structure LBEntry where
  name : String
  score : Int
deriving DecidableEq, Repr

/-- Stable descending insert: `x` is placed before the first element
whose score is not greater, so among equal scores earlier list
positions stay first. -/
def insertEntry (x : LBEntry) : List LBEntry → List LBEntry
  | [] => [x]
  | y :: ys => if x.score < y.score then y :: insertEntry x ys else x :: y :: ys

/-- Stable sort descending by score: the result of
`leaderboard.sort((a, b) => b.score - a.score)`. -/
def sortDesc : List LBEntry → List LBEntry
  | [] => []
  | x :: xs => insertEntry x (sortDesc xs)

/-- Insert `x` after every element whose score is at least `x.score`:
where a freshly appended entry ends up after the stable sort. -/
def insertLate (x : LBEntry) : List LBEntry → List LBEntry
  | [] => [x]
  | y :: ys => if x.score ≤ y.score then y :: insertLate x ys else x :: y :: ys

/-- Stable descending insert on bare scores. -/
def insertScore (s : Int) : List Int → List Int
  | [] => [s]
  | y :: ys => if s < y then y :: insertScore s ys else s :: y :: ys

/-- Stable descending sort on bare scores. -/
def sortScoresDesc : List Int → List Int
  | [] => []
  | x :: xs => insertScore x (sortScoresDesc xs)

/-! ### JSON text for the persisted leaderboard

Modelled from the spec: `JSON.stringify` / `JSON.parse` are platform
built-ins, not part of src/.  Per spec section 6 the persisted format is
a JSON array of `\x7b"name": string, "score": integer\x7d` objects; the
encoder below produces exactly the canonical text `JSON.stringify`
emits for such arrays, and the parser accepts that canonical text and
rejects everything else (real `JSON.parse` is additionally lenient
about whitespace and key order, which the program never produces). -/

/-- Escape a character for a JSON string literal (quote and backslash). -/
def escChar (c : Char) : List Char :=
  if c = '"' ∨ c = '\\' then ['\\', c] else [c]

/-- Escape a JSON string body. -/
def escapeChars (s : List Char) : List Char :=
  (s.map escChar).flatten

/-- The character for a decimal digit value. -/
def digitToChar (r : Nat) : Char := Char.ofNat (48 + r)

/-- The decimal digit value of a character. -/
def charToDigit (c : Char) : Nat := c.toNat - 48

/-- Whether a character is a decimal digit. -/
def isDigitChar (c : Char) : Bool := decide (48 ≤ c.toNat ∧ c.toNat ≤ 57)

/-- Big-endian decimal digits, fuelled so that it is structural; the
fuel only needs to exceed the number of digits. -/
def natCharsAux : Nat → Nat → List Char
  | 0, _ => []
  | fuel + 1, n =>
    if n < 10 then [digitToChar n]
    else natCharsAux fuel (n / 10) ++ [digitToChar (n % 10)]

/-- Big-endian decimal digits of a natural number. -/
def natChars (n : Nat) : List Char := natCharsAux (n + 1) n

/-- Decimal text of an integer, as `JSON.stringify` prints it. -/
def intChars (i : Int) : List Char :=
  if i < 0 then '-' :: natChars i.natAbs else natChars i.toNat

/-- The literal `{"name":"` opening an entry object. -/
def nameLit : List Char := ['\x7b', '"', 'n', 'a', 'm', 'e', '"', ':', '"']

/-- The literal `","score":` between the name and the score. -/
def scoreLit : List Char := [',', '"', 's', 'c', 'o', 'r', 'e', '"', ':']

/-- The canonical JSON text of one entry: `{"name":"…","score":…}`. -/
def entryChars (e : LBEntry) : List Char :=
  nameLit ++ escapeChars e.name.data ++ '"' :: scoreLit ++ intChars e.score ++ ['\x7d']

/-- The comma-separated bodies of the entries. -/
def bodyChars : List LBEntry → List Char
  | [] => []
  | [e] => entryChars e
  | e :: es => entryChars e ++ ',' :: bodyChars es

/-- Model of `JSON.stringify` of a leaderboard array. -/
def stringifyLB (l : List LBEntry) : String :=
  String.mk ('[' :: bodyChars l ++ [']'])

/-- Match a literal prefix, returning the remainder. -/
def dropLit : List Char → List Char → Option (List Char)
  | [], cs => some cs
  | _ :: _, [] => none
  | p :: ps, c :: cs => if c = p then dropLit ps cs else none

/-- Scan a JSON string body up to its closing quote, unescaping
`\"` and `\\`; returns the decoded characters and the remainder after
the quote. -/
def scanName : List Char → Option (List Char × List Char)
  | [] => none
  | '"' :: rest => some ([], rest)
  | '\\' :: [] => none
  | '\\' :: d :: rest2 => (scanName rest2).map (fun p => (d :: p.1, p.2))
  | c :: rest => (scanName rest).map (fun p => (c :: p.1, p.2))

/-- The numeric value of a digit string. -/
def digitsVal (ds : List Char) : Nat :=
  ds.foldl (fun a c => 10 * a + charToDigit c) 0

/-- Parse a nonempty run of decimal digits. -/
def parseNat (cs : List Char) : Option (Nat × List Char) :=
  let ds := cs.takeWhile isDigitChar
  if ds = [] then none
  else some (digitsVal ds, cs.dropWhile isDigitChar)

/-- Parse a JSON integer (optional leading minus). -/
def parseInt (cs : List Char) : Option (Int × List Char) :=
  match cs with
  | [] => none
  | c :: rest =>
    if c = '-' then (parseNat rest).map (fun p => (-(p.1 : Int), p.2))
    else (parseNat (c :: rest)).map (fun p => ((p.1 : Int), p.2))

/-- Parse one `{"name":"…","score":…}` object. -/
def parseEntry (cs : List Char) : Option (LBEntry × List Char) := do
  let cs ← dropLit nameLit cs
  let (nm, cs) ← scanName cs
  let cs ← dropLit scoreLit cs
  let (v, cs) ← parseInt cs
  let cs ← dropLit ['\x7d'] cs
  some (⟨String.mk nm, v⟩, cs)

/-- Parse one or more comma-separated entries followed by `]`. -/
def parseItems : Nat → List Char → Option (List LBEntry × List Char)
  | 0, _ => none
  | fuel + 1, cs => do
    let (e, cs) ← parseEntry cs
    match cs with
    | ']' :: rest => some ([e], rest)
    | ',' :: rest => do
      let (es, rest2) ← parseItems fuel rest
      some (e :: es, rest2)
    | _ => none

/-- The remainder after a number does not begin with another digit (so
digit scanning stops exactly at the number's end). -/
def headNotDigit : List Char → Prop
  | [] => True
  | c :: _ => isDigitChar c = false

/-- The failure `JSON.parse` raises on malformed text. -/
def parseErrMsg : String := "SyntaxError: unexpected token in JSON"

/-- Modelled from the spec: `JSON.parse` restricted to the leaderboard
format (spec section 6): a malformed text surfaces a parse failure, a
canonical array text yields its entries. -/
def jsonParseLB (s : String) : Except String (List LBEntry) :=
  match s.data with
  | '[' :: rest =>
    if rest = [']'] then .ok []
    else
      match parseItems rest.length rest with
      | some (es, []) => .ok es
      | _ => .error parseErrMsg
  | _ => .error parseErrMsg

/-- Model of `JSON.parse(localStorage.getItem('leaderboard') || '[]')`: a missing
key (and the falsy empty string) is replaced by `'[]'` before parsing;
anything else is parsed as stored. -/
def loadLeaderboard (stored : Option String) : Except String (List LBEntry) :=
  let raw := match stored with
    | none => "[]"
    | some s => if s = "" then "[]" else s
  jsonParseLB raw

/-- The `playerName` fallback of `updateLeaderboard` (game.js lines
776-778): a falsy name falls back to the stored current player, else to
`'Anonymous'` (`||` also treats an empty stored name as falsy). -/
def resolveName (s : Storage) (playerName : String) : String :=
  if playerName = "" then
    match s.currentPlayer with
    | none => "Anonymous"
    | some n => if n = "" then "Anonymous" else n
  else playerName

/-- Model of `updateLeaderboard(playerName, score)` (game.js lines 774-796):
load, push, stable sort descending, keep top 5, persist.  A malformed
persisted text makes `JSON.parse` throw, which propagates to the
caller as the `Except.error` case. -/
def updateLeaderboard (playerName : String) (score : Int) (s : Storage) :
    Except String Storage := do
  let nm := resolveName s playerName
  let lb ← loadLeaderboard s.leaderboard
  let lb := lb ++ [⟨nm, score⟩]
  let lb := sortDesc lb
  let lb := lb.take 5
  pure { s with leaderboard := some (stringifyLB lb) }

/-- Model of `displayLeaderboard()` (game.js lines 801-840), output part: the
rendered rows (name text, score text), padded to 5 with `---`
placeholders.  A malformed persisted text makes `JSON.parse` throw
before anything renders. -/
def displayLeaderboard (s : Storage) : Except String (List (String × String)) := do
  let lb ← loadLeaderboard s.leaderboard
  let rows := lb.map (fun e => (e.name, toString e.score))
  pure (rows ++ List.replicate (5 - rows.length) ("---", "---"))

/-- A whole sequence of `record(name, score)` calls, left to right. -/
def runRecords (ps : List (String × Int)) (s : Storage) : Except String Storage :=
  ps.foldlM (fun s p => updateLeaderboard p.1 p.2 s) s

/-- The entries actually pushed by `runRecords` from the empty store:
names resolved against an empty `currentPlayer`. -/
def recordedEntries (ps : List (String × Int)) : List LBEntry :=
  ps.map (fun p => ⟨if p.1 = "" then "Anonymous" else p.1, p.2⟩)

/-! ## Timers (game.js lines 411-430, 442-453, 497-553) -/

/-- Model of `showTimerEndMessage()` (game.js lines 442-453), storage part:
records the stored current player's score on the leaderboard (the
announcement and redirect only render).  A null stored name behaves
like a falsy `playerName` argument. -/
def showTimerEndMessage (g : GameState) (s : Storage) : Except String Storage :=
  updateLeaderboard (match s.currentPlayer with | none => "" | some n => n) g.score s

/-- One tick of the single-player countdown interval (game.js lines
417-425): decrement; at zero stop the interval, record the score and
`resetGame()`.  A leaderboard parse failure propagates out of the tick
before `resetGame()` runs. -/
def timerTick (g : GameState) (s : Storage) : Except String (GameState × Storage) :=
  let g := { g with timeRemaining := g.timeRemaining - 1 }
  if g.timeRemaining ≤ 0 then do
    let g := { g with timerIntervalSet := false }
    let s ← showTimerEndMessage g s
    pure (resetGame g, updateReportData (resetGame g) s)
  else
    pure (g, s)

/-- One tick of the multiplayer per-turn interval (game.js lines
502-510): decrement; at zero stop the interval and run
`handleTurnEnd()`. -/
def multiplayerTick (g : GameState) : GameState :=
  let g := { g with multiplayerTimer := g.multiplayerTimer - 1 }
  if g.multiplayerTimer ≤ 0 then
    handleTurnEnd { g with multiplayerIntervalSet := false }
  else g

/-! ## Achievements (game.js lines 34-48, 714-760) -/

/-- A streak achievement record (game.js lines 36-39): threshold and
`awarded` flag. -/
structure StreakAchievement where
  id : String
  requirement : Int
  awarded : Bool
deriving DecidableEq, Repr

/-- The accuracy achievement record (game.js lines 43-46).  The source
object declares no `awarded` field, so reading it yields `undefined`,
i.e. falsy: modelled as `awarded := false` initially. -/
structure AccuracyAchievement where
  id : String
  accuracy : Rat
  questions : Int
  awarded : Bool
deriving DecidableEq, Repr

/-- The mutable achievement records (game.js `achievements`). -/
structure Achievements where
  streaks : List StreakAchievement
  accuracy : List AccuracyAchievement
deriving DecidableEq, Repr

/-- The `achievements` object as initialised (game.js lines 34-48). -/
def initAchievements : Achievements where
  streaks :=
    [⟨"streak5", 5, false⟩, ⟨"streak10", 10, false⟩,
     ⟨"streak15", 15, false⟩, ⟨"streak20", 20, false⟩]
  accuracy := [⟨"accuracy100_15", 100, 15, false⟩]

/-- Model of `awardAchievement(achievement)` (game.js lines 744-760): builds and
shows the notification node.  It never writes to the achievement
object — in particular it never sets `awarded` — so the record
returned is the record passed in. -/
def awardAchievement (a : AccuracyAchievement) : AccuracyAchievement := a

/-- The guard of the accuracy branch of `checkAchievements` (game.js
lines 731-737): `!achievement.awarded && totalAttempts ==
requirement.questions && (score / totalAttempts) * 100 ===
requirement.accuracy`. -/
def accuracyFires (g : GameState) (a : AccuracyAchievement) : Bool :=
  !a.awarded && g.totalAttempts == a.questions &&
    ((g.score : Rat) / (g.totalAttempts : Rat) * 100 == a.accuracy)

/-- Model of `checkAchievements()` (game.js lines 722-738): returns the ids
fired this call (streak thresholds by exact equality, then the
accuracy achievements whose guard holds) and the achievement records
afterwards.  Since `awardAchievement` mutates nothing, the records come
back unchanged. -/
def checkAchievements (g : GameState) (a : Achievements) : List String × Achievements :=
  let streakFired := (a.streaks.filter (fun ach => g.streak == ach.requirement)).map (·.id)
  let accuracyFired := (a.accuracy.filter (fun ach => accuracyFires g ach)).map (·.id)
  let accuracyAfter := a.accuracy.map (fun ach => if accuracyFires g ach then awardAchievement ach else ach)
  (streakFired ++ accuracyFired, { a with accuracy := accuracyAfter })

/-- A full answer submission as `checkAnswer` performs it: state update
then `checkAchievements` on the updated state (the achievement check is
the only part of the tail of `checkAnswer` that reads mutable game
data). -/
def submitStep (p : GameState × Achievements) (x : Submission) :
    (GameState × Achievements) × List String :=
  let g := checkAnswer p.1 x.selected x.correct x.elapsed
  let (fired, a) := checkAchievements g p.2
  ((g, a), fired)

/-- Fold submissions, keeping only the final state and records. -/
def submitStepsState (p : GameState × Achievements) (l : List Submission) :
    GameState × Achievements :=
  l.foldl (fun p x => (submitStep p x).1) p

/-- Model of `n` identical correct answers (selected = correct = 1, no time). -/
def correctRun (n : Nat) : List Submission :=
  List.replicate n ⟨1, 1, 0⟩

/-! ## Option generation (game.js lines 320-345) -/

/-- One candidate distractor from a pair of `Math.random()` draws:
`offset = Math.floor(Math.random() * 5) + 1` and
`Math.random() < 0.5 ? correctAnswer + offset : correctAnswer - offset`.
The game's answers are integers whenever options are generated, so the
option values live in `Int`. -/
def candidate (c : Int) (d : Rat × Rat) : Int :=
  let offset := ⌊d.1 * 5⌋ + 1
  if d.2 < 1/2 then c + offset else c - offset

/-- The option-accumulation loop of `generateOptions` (game.js lines
321-329) after `n` iterations of the `while (options.length < 4)` body,
fed by the stream `draws` of `Math.random()` pairs.  Once four options
exist the loop has exited and the list no longer changes. -/
def optLoop (c : Int) (draws : Nat → Rat × Rat) : Nat → List Int
  | 0 => [c]
  | n + 1 =>
    let os := optLoop c draws n
    if os.length < 4 then
      let cand := candidate c (draws n)
      if cand ∈ os then os else os ++ [cand]
    else os

/-- A random stream that always draws offset 1 with positive sign. -/
def constDraws : Nat → Rat × Rat := fun _ => (0, 0)

/-- A random stream whose first three candidates are `c+1`, `c-1`,
`c+6`. -/
def demoDraws : Nat → Rat × Rat :=
  fun n => if n = 0 then (0, 0) else if n = 1 then (0, 1) else (1, 0)

/-! ## Helpers for statements -/

/-- The streak evolution of a submission sequence, starting from a
given streak value. -/
def streakFold (s : Int) (l : List Submission) : Int :=
  l.foldl (fun s x => if x.selected = x.correct then s + 1 else 0) s

/-- A state one second before single-player timer expiry. -/
def gExpire : GameState :=
  { initGameState with timeRemaining := 1, timerActive := true, timerIntervalSet := true }

/-- What the expiry tick from `gExpire` over an empty store produces:
the reset state and the store holding the recorded anonymous score and
the reset report fields. -/
def expireOut : GameState × Storage :=
  (resetGame { initGameState with
      timeRemaining := 0
      timerActive := true
      timerIntervalSet := false },
   updateReportData (resetGame initGameState)
     { emptyStorage with leaderboard := some (stringifyLB [⟨"Anonymous", 0⟩]) })

/-- Fourteen correct answers into a session from the start. -/
def phase1 : GameState × Achievements :=
  submitStepsState (initGameState, initAchievements) (correctRun 14)

/-- The fifteenth correct answer: the accuracy achievement's moment. -/
def step15 : (GameState × Achievements) × List String :=
  submitStep phase1 ⟨1, 1, 0⟩

/-- After a session reset (as any mode toggle performs), fourteen more
correct answers. -/
def phase2 : GameState × Achievements :=
  submitStepsState (resetGame step15.1.1, step15.1.2) (correctRun 14)

/-- The fifteenth correct answer of the second run. -/
def step30 : (GameState × Achievements) × List String :=
  submitStep phase2 ⟨1, 1, 0⟩

/-! # Theorems -/

theorem timerTick_gExpire : timerTick gExpire emptyStorage = Except.ok expireOut := rfl

theorem checkAnswer_totalAttempts (g : GameState) (s c t : Rat) :
    (checkAnswer g s c t).totalAttempts = g.totalAttempts + 1 := by
  simp only [checkAnswer]
  split_ifs <;> rfl

theorem checkAnswer_totalTime (g : GameState) (s c t : Rat) :
    (checkAnswer g s c t).totalTime = g.totalTime + t := by
  simp only [checkAnswer]
  split_ifs <;> rfl

theorem checkAnswer_score (g : GameState) (s c t : Rat) :
    (checkAnswer g s c t).score = if s = c then g.score + 1 else g.score := by
  simp only [checkAnswer]
  split_ifs <;> rfl

theorem checkAnswer_streak (g : GameState) (s c t : Rat) :
    (checkAnswer g s c t).streak = if s = c then g.streak + 1 else 0 := by
  simp only [checkAnswer]
  split_ifs <;> rfl

theorem checkAnswer_currentOperation (g : GameState) (s c t : Rat) :
    (checkAnswer g s c t).currentOperation = g.currentOperation := by
  simp only [checkAnswer]
  split_ifs <;> rfl

theorem checkAnswer_currentDifficulty (g : GameState) (s c t : Rat) :
    (checkAnswer g s c t).currentDifficulty = g.currentDifficulty := by
  simp only [checkAnswer]
  split_ifs <;> rfl

theorem checkAnswer_isMultiplayerRound (g : GameState) (s c t : Rat) :
    (checkAnswer g s c t).isMultiplayerRound = g.isMultiplayerRound := by
  simp only [checkAnswer]
  split_ifs <;> rfl

theorem submitAll_nil (g : GameState) : submitAll g [] = g := rfl

theorem submitAll_cons (g : GameState) (x : Submission) (l : List Submission) :
    submitAll g (x :: l) = submitAll (checkAnswer g x.selected x.correct x.elapsed) l := rfl

theorem submitAll_streak (g : GameState) (l : List Submission) :
    (submitAll g l).streak = streakFold g.streak l := by
  induction l generalizing g with
  | nil => rfl
  | cons x xs ih =>
    rw [submitAll_cons]
    rw [ih]
    simp only [streakFold, List.foldl_cons]
    rw [checkAnswer_streak]

theorem streakFold_nonneg (s : Int) (l : List Submission) (h : 0 ≤ s) :
    0 ≤ streakFold s l := by
  induction l generalizing s with
  | nil => exact h
  | cons x xs ih =>
    simp only [streakFold, List.foldl_cons]
    by_cases hx : x.selected = x.correct
    · simp only [hx, if_pos rfl]
      exact ih _ (by omega)
    · rw [if_neg hx]
      exact ih _ le_rfl

theorem streakFold_append_singleton (s : Int) (l : List Submission) (x : Submission) :
    streakFold s (l ++ [x]) =
      if x.selected = x.correct then streakFold s l + 1 else 0 := by
  simp only [streakFold, List.foldl_append, List.foldl_cons, List.foldl_nil]

theorem trailingCorrect_append_singleton (l : List Submission) (x : Submission) :
    trailingCorrect (l ++ [x]) =
      if x.selected = x.correct then trailingCorrect l + 1 else 0 := by
  simp only [trailingCorrect, List.reverse_append, List.reverse_cons, List.reverse_nil,
    List.nil_append, List.cons_append, List.takeWhile]
  by_cases hx : x.selected = x.correct
  · have hb : (x.selected == x.correct) = true := beq_iff_eq.mpr hx
    simp [hx, hb, Nat.add_comm]
  · have hb : (x.selected == x.correct) = false := beq_eq_false_iff_ne.mpr hx
    simp [hx, hb]

theorem streakFold_eq_trailing (s : Int) (l : List Submission)
    (h : ∃ x ∈ l, ¬ x.selected = x.correct) :
    streakFold s l = (trailingCorrect l : Int) := by
  induction l using List.reverseRecOn with
  | nil => simp at h
  | append_singleton xs x ih =>
    rw [streakFold_append_singleton, trailingCorrect_append_singleton]
    by_cases hx : x.selected = x.correct
    · have hxs : ∃ y ∈ xs, ¬ y.selected = y.correct := by
        obtain ⟨y, hy, hne⟩ := h
        rcases List.mem_append.mp hy with hmem | hmem
        · exact ⟨y, hmem, hne⟩
        · simp only [List.mem_singleton] at hmem
          exact absurd hx (hmem ▸ hne)
      rw [if_pos hx, if_pos hx, ih hxs]
      push_cast
      ring
    · simp [hx]

/-- C5: each `checkAnswer` call increments `totalAttempts` and adds the
elapsed seconds to `totalTime` unconditionally; a correct answer
increments `score` and `streak` by one, an incorrect answer resets
`streak` to 0; consequently over any sequence of calls the streak stays
non-negative, and once any incorrect answer has occurred in the
sequence it equals the number of consecutive correct answers since the
last incorrect one. -/
theorem checkAnswer_submit_spec :
    (∀ (g : GameState) (sel cor t : Rat),
      (checkAnswer g sel cor t).totalAttempts = g.totalAttempts + 1 ∧
      (checkAnswer g sel cor t).totalTime = g.totalTime + t) ∧
    (∀ (g : GameState) (sel cor t : Rat), sel = cor →
      (checkAnswer g sel cor t).score = g.score + 1 ∧
      (checkAnswer g sel cor t).streak = g.streak + 1) ∧
    (∀ (g : GameState) (sel cor t : Rat), ¬ sel = cor →
      (checkAnswer g sel cor t).streak = 0) ∧
    (∀ (g : GameState) (l : List Submission), 0 ≤ g.streak →
      0 ≤ (submitAll g l).streak) ∧
    (∀ (g : GameState) (l : List Submission),
      (∃ x ∈ l, ¬ x.selected = x.correct) →
      (submitAll g l).streak = (trailingCorrect l : Int)) := by
  refine ⟨fun g sel cor t => ⟨checkAnswer_totalAttempts .., checkAnswer_totalTime ..⟩,
    fun g sel cor t h => ⟨?_, ?_⟩, fun g sel cor t h => ?_, fun g l h => ?_, fun g l h => ?_⟩
  · rw [checkAnswer_score, if_pos h]
  · rw [checkAnswer_streak, if_pos h]
  · rw [checkAnswer_streak, if_neg h]
  · rw [submitAll_streak]
    exact streakFold_nonneg _ _ h
  · rw [submitAll_streak]
    exact streakFold_eq_trailing _ _ h

/-- Witness for C5 at concrete inputs: one wrong answer (selected 0,
correct 1) followed by one right answer (selected and correct 1) taking
2 seconds, starting from the initial state. -/
theorem checkAnswer_submit_spec_witness :
    (checkAnswer initGameState 1 1 2).totalAttempts = 1 ∧
    (checkAnswer initGameState 1 1 2).totalTime = 2 ∧
    (checkAnswer initGameState 1 1 2).score = 1 ∧
    (checkAnswer initGameState 1 1 2).streak = 1 ∧
    (checkAnswer initGameState 0 1 2).streak = 0 ∧
    0 ≤ (submitAll initGameState [⟨0, 1, 0⟩, ⟨1, 1, 0⟩]).streak ∧
    (submitAll initGameState [⟨0, 1, 0⟩, ⟨1, 1, 0⟩]).streak =
      (trailingCorrect [⟨0, 1, 0⟩, ⟨1, 1, 0⟩] : Int) := by
  obtain ⟨h1, h2, h3, h4, h5⟩ := checkAnswer_submit_spec
  refine ⟨(h1 initGameState 1 1 2).1, ?_, (h2 initGameState 1 1 2 rfl).1,
    (h2 initGameState 1 1 2 rfl).2, h3 initGameState 0 1 2 zero_ne_one,
    h4 initGameState _ le_rfl, h5 initGameState _ ?_⟩
  · rw [(h1 initGameState 1 1 2).2]
    norm_num [initGameState]
  · exact ⟨⟨0, 1, 0⟩, by simp, zero_ne_one⟩

/-- C9: with no attempts yet, the persisted accuracy percentage and
average time are 0 (no division by zero); with at least one attempt
they are `Math.round(score / totalAttempts * 100)` and
`Math.round(totalTime / totalAttempts)` respectively. -/
theorem accuracy_avg_guarded :
    ∀ g : GameState,
      (g.totalAttempts = 0 → accuracyPercent g = 0 ∧ averageTimeSeconds g = 0) ∧
      (g.totalAttempts > 0 →
        accuracyPercent g = jsRound ((g.score : Rat) / (g.totalAttempts : Rat) * 100) ∧
        averageTimeSeconds g = jsRound (g.totalTime / (g.totalAttempts : Rat))) := by
  intro g
  constructor
  · intro h
    simp [accuracyPercent, averageTimeSeconds, h]
  · intro h
    simp [accuracyPercent, averageTimeSeconds, h]

/-- Witness for C9: the initial state has no attempts and reports 0;
after one correct answer taking 2 seconds, accuracy is 100 and average
time 2. -/
theorem accuracy_avg_guarded_witness :
    accuracyPercent initGameState = 0 ∧
    averageTimeSeconds initGameState = 0 ∧
    accuracyPercent (checkAnswer initGameState 1 1 2) = 100 ∧
    averageTimeSeconds (checkAnswer initGameState 1 1 2) = 2 := by
  have h0 := (accuracy_avg_guarded initGameState).1 rfl
  have hpos : (checkAnswer initGameState 1 1 2).totalAttempts > 0 := by
    rw [checkAnswer_totalAttempts]
    norm_num [initGameState]
  have h1 := (accuracy_avg_guarded (checkAnswer initGameState 1 1 2)).2 hpos
  refine ⟨h0.1, h0.2, ?_, ?_⟩
  · rw [h1.1, checkAnswer_totalAttempts, checkAnswer_score]
    norm_num [initGameState, jsRound]
  · rw [h1.2, checkAnswer_totalAttempts, checkAnswer_totalTime]
    norm_num [initGameState, jsRound]

theorem toggleTimer_frame (g : GameState) :
    (toggleTimer g).currentOperation = g.currentOperation ∧
    (toggleTimer g).currentDifficulty = g.currentDifficulty ∧
    (toggleTimer g).streak = g.streak ∧
    (toggleTimer g).totalAttempts = g.totalAttempts ∧
    (toggleTimer g).totalTime = g.totalTime := by
  simp only [toggleTimer]
  split_ifs <;> exact ⟨rfl, rfl, rfl, rfl, rfl⟩

theorem toggleMultiplayer_zeroes (g : GameState) :
    (toggleMultiplayer g).score = 0 ∧ (toggleMultiplayer g).streak = 0 ∧
    (toggleMultiplayer g).totalAttempts = 0 ∧ (toggleMultiplayer g).totalTime = 0 ∧
    (toggleMultiplayer g).currentOperation = g.currentOperation ∧
    (toggleMultiplayer g).currentDifficulty = g.currentDifficulty := by
  simp only [toggleMultiplayer, startMultiplayerRound, resetGame]
  split_ifs <;> exact ⟨rfl, rfl, rfl, rfl, rfl, rfl⟩

theorem announceWinner_zeroes (g : GameState) :
    (announceWinner g).score = 0 ∧ (announceWinner g).streak = 0 ∧
    (announceWinner g).totalAttempts = 0 ∧ (announceWinner g).totalTime = 0 ∧
    (announceWinner g).currentOperation = g.currentOperation ∧
    (announceWinner g).currentDifficulty = g.currentDifficulty :=
  ⟨rfl, rfl, rfl, rfl, rfl, rfl⟩

theorem multiplayerTick_frame (g : GameState) :
    (multiplayerTick g).currentOperation = g.currentOperation ∧
    (multiplayerTick g).currentDifficulty = g.currentDifficulty := by
  simp only [multiplayerTick, handleTurnEnd, announceWinner, resetGame]
  split_ifs <;> exact ⟨rfl, rfl⟩

theorem timerTick_ok (g : GameState) (s : Storage) (out : GameState × Storage)
    (h : timerTick g s = Except.ok out) :
    (g.timeRemaining - 1 ≤ 0 →
      out.1 = resetGame { g with
        timeRemaining := g.timeRemaining - 1
        timerIntervalSet := false }) ∧
    (¬ g.timeRemaining - 1 ≤ 0 → out.1 = { g with timeRemaining := g.timeRemaining - 1 }) := by
  simp only [timerTick] at h
  split_ifs at h with hle
  · refine ⟨fun _ => ?_, fun hgt => absurd hle hgt⟩
    cases hs : showTimerEndMessage { g with
        timeRemaining := g.timeRemaining - 1
        timerIntervalSet := false } s with
    | error e =>
      rw [hs] at h
      exact Except.noConfusion h
    | ok s2 =>
      rw [hs] at h
      rw [← Except.ok.inj h]
  · refine ⟨fun hle2 => absurd hle2 hle, fun _ => ?_⟩
    rw [← Except.ok.inj h]

/-- C10: `resetGame` zeroes `score`, `streak`, `totalAttempts`,
`totalTime`, `p1Score` and `p2Score`, sets `currentPlayer` to 1, clears
the multiplayer-round flag and the multiplayer interval, and changes
nothing else; in particular the operation and difficulty survive every
mode toggle, multiplayer tick, round end and (successful) timer
expiry. -/
theorem resetGame_resets_and_preserves :
    (∀ g : GameState,
      resetGame g = { g with
        score := 0
        streak := 0
        totalAttempts := 0
        p1Score := 0
        p2Score := 0
        currentPlayer := 1
        totalTime := 0
        isMultiplayerRound := false
        multiplayerIntervalSet := false }) ∧
    (∀ g : GameState,
      (toggleTimer g).currentOperation = g.currentOperation ∧
      (toggleTimer g).currentDifficulty = g.currentDifficulty ∧
      (toggleMultiplayer g).currentOperation = g.currentOperation ∧
      (toggleMultiplayer g).currentDifficulty = g.currentDifficulty ∧
      (multiplayerTick g).currentOperation = g.currentOperation ∧
      (multiplayerTick g).currentDifficulty = g.currentDifficulty ∧
      (announceWinner g).currentOperation = g.currentOperation ∧
      (announceWinner g).currentDifficulty = g.currentDifficulty) ∧
    (∀ (g : GameState) (s : Storage) (out : GameState × Storage),
      timerTick g s = Except.ok out →
      out.1.currentOperation = g.currentOperation ∧
      out.1.currentDifficulty = g.currentDifficulty) := by
  refine ⟨fun g => rfl, fun g => ?_, fun g s out h => ?_⟩
  · obtain ⟨t1, t2, -, -, -⟩ := toggleTimer_frame g
    obtain ⟨-, -, -, -, m1, m2⟩ := toggleMultiplayer_zeroes g
    obtain ⟨k1, k2⟩ := multiplayerTick_frame g
    obtain ⟨-, -, -, -, a1, a2⟩ := announceWinner_zeroes g
    exact ⟨t1, t2, m1, m2, k1, k2, a1, a2⟩
  · obtain ⟨h1, h2⟩ := timerTick_ok g s out h
    by_cases hle : g.timeRemaining - 1 ≤ 0
    · rw [h1 hle]
      exact ⟨rfl, rfl⟩
    · rw [h2 hle]
      exact ⟨rfl, rfl⟩

/-- Witness for C10: a concrete successful expiry tick from one second
remaining over the empty store keeps the initial operation and
difficulty. -/
theorem resetGame_resets_and_preserves_witness :
    expireOut.1.currentOperation = Operation.addition ∧
    expireOut.1.currentDifficulty = Difficulty.easy := by
  have h := resetGame_resets_and_preserves.2.2 gExpire emptyStorage expireOut timerTick_gExpire
  exact ⟨h.1, h.2⟩

/-- Counterexample to C3 as stated: enabling the single-player timer is
a mode toggle, yet after one correct answer from the initial state the
streak is still 1, not 0, once the timer is toggled on (the code only
zeroes `score` there). -/
theorem session_reset_counterexample :
    (toggleTimer (checkAnswer initGameState 1 1 0)).streak = 1 ∧
    ¬ (toggleTimer (checkAnswer initGameState 1 1 0)).streak = 0 := by
  have h : (toggleTimer (checkAnswer initGameState 1 1 0)).streak = 1 := by
    obtain ⟨-, -, hs, -, -⟩ := toggleTimer_frame (checkAnswer initGameState 1 1 0)
    rw [hs, checkAnswer_streak, if_pos rfl]
    rfl
  exact ⟨h, by rw [h]; exact one_ne_zero⟩

/-- C3 (amended): entering or exiting multiplayer, a multiplayer round
end, and a successful single-player timer expiry each zero `score`,
`streak`, `totalAttempts` and `totalTime`; enabling the single-player
timer zeroes only `score` and leaves the other three unchanged,
disabling it leaves all four unchanged; and changing the operation or
difficulty mutates none of them. -/
theorem session_reset_on_transitions :
    (∀ g : GameState,
      (toggleMultiplayer g).score = 0 ∧ (toggleMultiplayer g).streak = 0 ∧
      (toggleMultiplayer g).totalAttempts = 0 ∧ (toggleMultiplayer g).totalTime = 0) ∧
    (∀ g : GameState,
      (announceWinner g).score = 0 ∧ (announceWinner g).streak = 0 ∧
      (announceWinner g).totalAttempts = 0 ∧ (announceWinner g).totalTime = 0) ∧
    (∀ (g : GameState) (s : Storage) (out : GameState × Storage),
      timerTick g s = Except.ok out → g.timeRemaining - 1 ≤ 0 →
      out.1.score = 0 ∧ out.1.streak = 0 ∧
      out.1.totalAttempts = 0 ∧ out.1.totalTime = 0) ∧
    (∀ g : GameState, g.timerActive = false →
      (toggleTimer g).score = 0 ∧ (toggleTimer g).streak = g.streak ∧
      (toggleTimer g).totalAttempts = g.totalAttempts ∧
      (toggleTimer g).totalTime = g.totalTime) ∧
    (∀ g : GameState, g.timerActive = true →
      (toggleTimer g).score = g.score ∧ (toggleTimer g).streak = g.streak ∧
      (toggleTimer g).totalAttempts = g.totalAttempts ∧
      (toggleTimer g).totalTime = g.totalTime) ∧
    (∀ (g : GameState) (op : Operation) (d : Difficulty),
      (setOperation g op).score = g.score ∧ (setOperation g op).streak = g.streak ∧
      (setOperation g op).totalAttempts = g.totalAttempts ∧
      (setOperation g op).totalTime = g.totalTime ∧
      (setDifficulty g d).score = g.score ∧ (setDifficulty g d).streak = g.streak ∧
      (setDifficulty g d).totalAttempts = g.totalAttempts ∧
      (setDifficulty g d).totalTime = g.totalTime) := by
  refine ⟨fun g => ?_, fun g => ?_, fun g s out h hle => ?_, fun g hoff => ?_,
    fun g hon => ?_, fun g op d => ⟨rfl, rfl, rfl, rfl, rfl, rfl, rfl, rfl⟩⟩
  · obtain ⟨z1, z2, z3, z4, -, -⟩ := toggleMultiplayer_zeroes g
    exact ⟨z1, z2, z3, z4⟩
  · obtain ⟨z1, z2, z3, z4, -, -⟩ := announceWinner_zeroes g
    exact ⟨z1, z2, z3, z4⟩
  · rw [(timerTick_ok g s out h).1 hle]
    exact ⟨rfl, rfl, rfl, rfl⟩
  · simp only [toggleTimer, hoff]
    exact ⟨rfl, rfl, rfl, rfl⟩
  · simp only [toggleTimer, hon]
    exact ⟨rfl, rfl, rfl, rfl⟩

/-- Witness for C3 (amended) at concrete inputs: toggling multiplayer
from the initial state zeroes the session; the demo expiry tick zeroes
the session; enabling the timer on the initial state zeroes the score
while keeping the streak; disabling it from `gExpire` keeps the
score. -/
theorem session_reset_on_transitions_witness :
    (toggleMultiplayer initGameState).score = 0 ∧
    expireOut.1.score = 0 ∧ expireOut.1.streak = 0 ∧
    (toggleTimer initGameState).score = 0 ∧
    (toggleTimer initGameState).streak = initGameState.streak ∧
    (toggleTimer gExpire).score = gExpire.score := by
  obtain ⟨m, -, tick, ton, toff, -⟩ := session_reset_on_transitions
  have htick := tick gExpire emptyStorage expireOut timerTick_gExpire (by decide)
  have hon := ton initGameState rfl
  have hoff := toff gExpire rfl
  exact ⟨(m initGameState).1, htick.1, htick.2.1, hon.1, hon.2.1, hoff.1⟩

theorem generateNumber_mem_range (d : Difficulty) (q : Rat) (h0 : 0 ≤ q) (h1 : q < 1) :
    (difficultyRanges d).1 ≤ generateNumber d q ∧
    generateNumber d q ≤ (difficultyRanges d).2 := by
  have hge : (difficultyRanges d).1 ≤ (difficultyRanges d).2 := by
    cases d <;> norm_num [difficultyRanges]
  have hunfold : generateNumber d q =
      ⌊q * (((difficultyRanges d).2 : Rat) - ((difficultyRanges d).1 : Rat) + 1)⌋
        + (difficultyRanges d).1 := rfl
  have hRpos : (0 : Rat) <
      ((difficultyRanges d).2 : Rat) - ((difficultyRanges d).1 : Rat) + 1 := by
    have hc : ((difficultyRanges d).1 : Rat) ≤ ((difficultyRanges d).2 : Rat) := by
      exact_mod_cast hge
    linarith
  have hlow : (0 : Int) ≤
      ⌊q * (((difficultyRanges d).2 : Rat) - ((difficultyRanges d).1 : Rat) + 1)⌋ :=
    Int.floor_nonneg.mpr (mul_nonneg h0 (le_of_lt hRpos))
  have hupp : ⌊q * (((difficultyRanges d).2 : Rat) - ((difficultyRanges d).1 : Rat) + 1)⌋ <
      (difficultyRanges d).2 - (difficultyRanges d).1 + 1 := by
    apply Int.floor_lt.mpr
    push_cast
    have := mul_lt_mul_of_pos_right h1 hRpos
    linarith
  rw [hunfold]
  omega

/-- C8: a division problem at any difficulty has
`operand1 % operand2 == 0`, `operand1` being the product of the two
range draws, `operand2` the second draw; both draws lie in the
difficulty's inclusive range, and the correct answer is exactly
`operand1 / operand2`, the integer value of the first draw. -/
theorem division_problem_exact :
    ∀ (d : Difficulty) (q1 q2 : Rat), 0 ≤ q1 → q1 < 1 → 0 ≤ q2 → q2 < 1 →
      (generateNewProblem .division d q1 q2).operand1 %
        (generateNewProblem .division d q1 q2).operand2 = 0 ∧
      (generateNewProblem .division d q1 q2).operand1 =
        generateNumber d q1 * generateNumber d q2 ∧
      (generateNewProblem .division d q1 q2).operand2 = generateNumber d q2 ∧
      ((difficultyRanges d).1 ≤ generateNumber d q1 ∧
        generateNumber d q1 ≤ (difficultyRanges d).2) ∧
      ((difficultyRanges d).1 ≤ generateNumber d q2 ∧
        generateNumber d q2 ≤ (difficultyRanges d).2) ∧
      (generateNewProblem .division d q1 q2).correctAnswer =
        ((generateNewProblem .division d q1 q2).operand1 : Rat) /
          ((generateNewProblem .division d q1 q2).operand2 : Rat) ∧
      (generateNewProblem .division d q1 q2).correctAnswer =
        ((generateNumber d q1 : Int) : Rat) := by
  intro d q1 q2 h10 h11 h20 h21
  have hr1 := generateNumber_mem_range d q1 h10 h11
  have hr2 := generateNumber_mem_range d q2 h20 h21
  have hmn : 1 ≤ (difficultyRanges d).1 := by
    cases d <;> norm_num [difficultyRanges]
  have hn2pos : (0 : Int) < generateNumber d q2 := by omega
  have hn2 : ((generateNumber d q2 : Int) : Rat) ≠ 0 := by
    exact_mod_cast ne_of_gt hn2pos
  have hdef : generateNewProblem .division d q1 q2 =
      { operand1 := generateNumber d q1 * generateNumber d q2
        operand2 := generateNumber d q2
        correctAnswer := ((generateNumber d q1 * generateNumber d q2 : Int) : Rat) /
          ((generateNumber d q2 : Int) : Rat) } := rfl
  rw [hdef]
  refine ⟨Int.mul_emod_left _ _, rfl, rfl, hr1, hr2, rfl, ?_⟩
  push_cast
  exact mul_div_cancel_right₀ _ hn2

/-- Witness for C8: the easy difficulty with both draws 0 yields the
problem 1 ÷ 1 with exact integer answer 1. -/
theorem division_problem_exact_witness :
    (generateNewProblem .division .easy 0 0).operand1 = 1 ∧
    (generateNewProblem .division .easy 0 0).operand2 = 1 ∧
    (generateNewProblem .division .easy 0 0).operand1 %
      (generateNewProblem .division .easy 0 0).operand2 = 0 ∧
    (generateNewProblem .division .easy 0 0).correctAnswer = ((1 : Int) : Rat) := by
  obtain ⟨hmod, hop1, hop2, -, -, -, hans⟩ :=
    division_problem_exact .easy 0 0 le_rfl (by norm_num) le_rfl (by norm_num)
  have hg : generateNumber .easy 0 = 1 := by
    norm_num [generateNumber, difficultyRanges]
  rw [hg] at hop1 hop2 hans
  exact ⟨by rw [hop1]; norm_num, hop2, hmod, hans⟩

theorem optLoop_succ (c : Int) (draws : Nat → Rat × Rat) (n : Nat) :
    optLoop c draws (n + 1) =
      if (optLoop c draws n).length < 4 then
        (if candidate c (draws n) ∈ optLoop c draws n then optLoop c draws n
         else optLoop c draws n ++ [candidate c (draws n)])
      else optLoop c draws n := rfl

theorem optLoop_length_le (c : Int) (draws : Nat → Rat × Rat) (n : Nat) :
    (optLoop c draws n).length ≤ 4 := by
  induction n with
  | zero => simp [optLoop]
  | succ m ih =>
    rw [optLoop_succ]
    split_ifs with h1 h2
    · exact ih
    · simp only [List.length_append, List.length_singleton]
      omega
    · exact ih

theorem optLoop_subset_succ (c : Int) (draws : Nat → Rat × Rat) (n : Nat) :
    optLoop c draws n ⊆ optLoop c draws (n + 1) := by
  rw [optLoop_succ]
  split_ifs with h1 h2
  · exact fun x hx => hx
  · exact fun x hx => List.mem_append_left _ hx
  · exact fun x hx => hx

theorem optLoop_subset (c : Int) (draws : Nat → Rat × Rat) {n m : Nat} (h : n ≤ m) :
    optLoop c draws n ⊆ optLoop c draws m := by
  induction m with
  | zero =>
    cases Nat.le_zero.mp h
    exact fun x hx => hx
  | succ k ih =>
    rcases Nat.lt_or_ge n (k + 1) with hlt | hge
    · exact fun x hx => optLoop_subset_succ c draws k (ih (Nat.lt_succ_iff.mp hlt) hx)
    · cases Nat.le_antisymm h hge
      exact fun x hx => hx

theorem optLoop_length_mono (c : Int) (draws : Nat → Rat × Rat) {n m : Nat} (h : n ≤ m) :
    (optLoop c draws n).length ≤ (optLoop c draws m).length := by
  induction m with
  | zero =>
    cases Nat.le_zero.mp h
    exact le_rfl
  | succ k ih =>
    rcases Nat.lt_or_ge n (k + 1) with hlt | hge
    · refine le_trans (ih (Nat.lt_succ_iff.mp hlt)) ?_
      rw [optLoop_succ]
      split_ifs
      · exact le_rfl
      · simp only [List.length_append, List.length_singleton]
        omega
      · exact le_rfl
    · cases Nat.le_antisymm h hge
      exact le_rfl

theorem optLoop_nodup (c : Int) (draws : Nat → Rat × Rat) (n : Nat) :
    (optLoop c draws n).Nodup := by
  induction n with
  | zero => simp [optLoop]
  | succ m ih =>
    rw [optLoop_succ]
    split_ifs with h1 h2
    · exact ih
    · simp only [List.nodup_append, List.nodup_singleton, true_and]
      refine ⟨ih, ?_⟩
      intro a ha hb
      simp only [List.mem_singleton] at hb
      exact h2 (hb ▸ ha)
    · exact ih

theorem optLoop_mem_correct (c : Int) (draws : Nat → Rat × Rat) (n : Nat) :
    c ∈ optLoop c draws n := by
  induction n with
  | zero => simp [optLoop]
  | succ m ih => exact optLoop_subset_succ c draws m ih

theorem optLoop_mem_candidate (c : Int) (draws : Nat → Rat × Rat) (n : Nat)
    (hlen : (optLoop c draws n).length < 4) :
    ∀ i < n, candidate c (draws i) ∈ optLoop c draws n := by
  induction n with
  | zero => intro i hi; omega
  | succ m ih =>
    intro i hi
    have hm : (optLoop c draws m).length < 4 :=
      lt_of_le_of_lt (optLoop_length_mono c draws (Nat.le_succ m)) hlen
    rcases Nat.lt_or_ge i m with him | him
    · exact optLoop_subset_succ c draws m (ih hm i him)
    · have hieq : i = m := by omega
      subst hieq
      rw [optLoop_succ]
      rw [if_pos hm]
      by_cases hc : candidate c (draws i) ∈ optLoop c draws i
      · rw [if_pos hc]
        exact hc
      · rw [if_neg hc]
        simp

theorem candidate_ne_correct (c : Int) (d : Rat × Rat) (h : 0 ≤ d.1) :
    candidate c d ≠ c := by
  have hfl : (0 : Int) ≤ ⌊d.1 * 5⌋ := Int.floor_nonneg.mpr (by positivity)
  simp only [candidate]
  split_ifs <;> omega

/-- Counterexample to C6 as stated: on the random sequence that always
draws offset 1 with positive sign, the option loop for correct answer 0
never reaches four options — after every number of iterations the list
is still `[0, 1]`, so the loop never terminates. -/
theorem generateOptions_divergent_sequence :
    ¬ ∃ n, (optLoop 0 constDraws n).length = 4 := by
  have hcand : candidate 0 (constDraws 0) = 1 := by
    norm_num [candidate, constDraws]
  have hstep : ∀ m, optLoop 0 constDraws (m + 1) = [0, 1] := by
    intro m
    induction m with
    | zero =>
      rw [optLoop_succ]
      have h0 : optLoop 0 constDraws 0 = [0] := rfl
      rw [h0]
      simp [hcand]
    | succ k ih =>
      rw [optLoop_succ, ih]
      have : constDraws (k + 1) = constDraws 0 := rfl
      rw [this]
      simp [hcand]
  rintro ⟨n, hn⟩
  cases n with
  | zero => simp [optLoop] at hn
  | succ m =>
    rw [hstep m] at hn
    simp at hn

/-- C6 (amended): the option loop does not terminate on every random
sequence (see the divergent sequence above); it does terminate — the
option list reaches length four — on every sequence of nonnegative
first draws whose induced candidate stream contains at least three
pairwise distinct values. -/
theorem generateOptions_terminates :
    ∀ (c : Int) (draws : Nat → Rat × Rat), (∀ i, 0 ≤ (draws i).1) →
    ∀ i j k : Nat,
      candidate c (draws i) ≠ candidate c (draws j) →
      candidate c (draws i) ≠ candidate c (draws k) →
      candidate c (draws j) ≠ candidate c (draws k) →
      ∃ n, (optLoop c draws n).length = 4 := by
  intro c draws hnn i j k hij hik hjk
  set N := max i (max j k) + 1 with hN
  by_cases hlen : (optLoop c draws N).length < 4
  · exfalso
    have hi : candidate c (draws i) ∈ optLoop c draws N :=
      optLoop_mem_candidate c draws N hlen i (by omega)
    have hj : candidate c (draws j) ∈ optLoop c draws N :=
      optLoop_mem_candidate c draws N hlen j (by omega)
    have hk : candidate c (draws k) ∈ optLoop c draws N :=
      optLoop_mem_candidate c draws N hlen k (by omega)
    have hc : c ∈ optLoop c draws N := optLoop_mem_correct c draws N
    have hci := (candidate_ne_correct c (draws i) (hnn i)).symm
    have hcj := (candidate_ne_correct c (draws j) (hnn j)).symm
    have hck := (candidate_ne_correct c (draws k) (hnn k)).symm
    have hnodup : ([c, candidate c (draws i), candidate c (draws j),
        candidate c (draws k)] : List Int).Nodup := by
      simp [List.nodup_cons, hci, hcj, hck, hij, hik, hjk]
    have hsub : ([c, candidate c (draws i), candidate c (draws j),
        candidate c (draws k)] : List Int) ⊆ optLoop c draws N := by
      intro x hx
      simp only [List.mem_cons, List.not_mem_nil, or_false] at hx
      rcases hx with rfl | rfl | rfl | rfl
      · exact hc
      · exact hi
      · exact hj
      · exact hk
    have hle := (hnodup.subperm hsub).length_le
    simp only [List.length_cons, List.length_singleton] at hle
    omega
  · refine ⟨N, ?_⟩
    have := optLoop_length_le c draws N
    omega

theorem demoDraws_candidates :
    candidate 0 (demoDraws 0) = 1 ∧ candidate 0 (demoDraws 1) = -1 ∧
    candidate 0 (demoDraws 2) = 6 := by
  refine ⟨?_, ?_, ?_⟩ <;> norm_num [candidate, demoDraws]

/-- Witness for C6 (amended): the demo stream has nonnegative draws and
three pairwise distinct candidates, so its loop reaches four options. -/
theorem generateOptions_terminates_witness :
    ∃ n, (optLoop 0 demoDraws n).length = 4 := by
  obtain ⟨h0, h1, h2⟩ := demoDraws_candidates
  refine generateOptions_terminates 0 demoDraws ?_ 0 1 2 ?_ ?_ ?_
  · intro i
    simp only [demoDraws]
    split_ifs <;> norm_num
  · rw [h0, h1]; decide
  · rw [h0, h2]; decide
  · rw [h1, h2]; decide

theorem optLoop_demoDraws : optLoop 0 demoDraws 3 = [0, 1, -1, 6] := by
  obtain ⟨h0, h1, h2⟩ := demoDraws_candidates
  have s0 : optLoop 0 demoDraws 0 = [0] := rfl
  have s1 : optLoop 0 demoDraws 1 = [0, 1] := by
    rw [optLoop_succ, s0]
    simp [h0]
  have s2 : optLoop 0 demoDraws 2 = [0, 1, -1] := by
    rw [optLoop_succ, s1]
    simp [h1]
  rw [optLoop_succ, s2]
  simp [h2]

/-- C7: whenever the option loop has terminated (the list reached
length four), the four option values are pairwise distinct and include
the correct answer; and any permutation of them — the concluding
random-comparator shuffle returns some permutation — has the same three
properties. -/
theorem generateOptions_four_distinct :
    ∀ (c : Int) (draws : Nat → Rat × Rat) (n : Nat),
      (optLoop c draws n).length = 4 →
      (optLoop c draws n).Nodup ∧ c ∈ optLoop c draws n ∧
      ∀ out : List Int, out.Perm (optLoop c draws n) →
        out.length = 4 ∧ out.Nodup ∧ c ∈ out := by
  intro c draws n hlen
  refine ⟨optLoop_nodup c draws n, optLoop_mem_correct c draws n, fun out hperm => ?_⟩
  exact ⟨hperm.length_eq.trans hlen, hperm.nodup_iff.mpr (optLoop_nodup c draws n),
    hperm.mem_iff.mpr (optLoop_mem_correct c draws n)⟩

/-- Witness for C7: the demo stream terminates after three iterations
with options `[0, 1, -1, 6]`; they are distinct, contain the correct
answer 0, and so does the reversed (shuffled) list. -/
theorem generateOptions_four_distinct_witness :
    (optLoop 0 demoDraws 3).Nodup ∧ (0 : Int) ∈ optLoop 0 demoDraws 3 ∧
    ([6, -1, 1, 0] : List Int).length = 4 ∧ ([6, -1, 1, 0] : List Int).Nodup ∧
    (0 : Int) ∈ ([6, -1, 1, 0] : List Int) := by
  have hlen : (optLoop 0 demoDraws 3).length = 4 := by
    rw [optLoop_demoDraws]
    rfl
  obtain ⟨hnd, hmem, hperm⟩ := generateOptions_four_distinct 0 demoDraws 3 hlen
  have hp : ([6, -1, 1, 0] : List Int).Perm (optLoop 0 demoDraws 3) := by
    rw [optLoop_demoDraws]
    decide
  obtain ⟨p1, p2, p3⟩ := hperm [6, -1, 1, 0] hp
  exact ⟨hnd, hmem, p1, p2, p3⟩

theorem checkAchievements_no_mutation (g : GameState) (a : Achievements) :
    (checkAchievements g a).2 = a := by
  simp [checkAchievements, awardAchievement]

theorem submitStepsState_eq (l : List Submission) (g : GameState) (a : Achievements) :
    submitStepsState (g, a) l = (submitAll g l, a) := by
  induction l generalizing g a with
  | nil => rfl
  | cons x xs ih =>
    have hstep : (submitStep (g, a) x).1 =
        (checkAnswer g x.selected x.correct x.elapsed, a) := by
      simp [submitStep, checkAchievements_no_mutation]
    show submitStepsState (submitStep (g, a) x).1 xs = _
    rw [hstep, ih, submitAll_cons]

theorem submitAll_correctRun (n : Nat) (g : GameState) :
    (submitAll g (correctRun n)).score = g.score + n ∧
    (submitAll g (correctRun n)).streak = g.streak + n ∧
    (submitAll g (correctRun n)).totalAttempts = g.totalAttempts + n ∧
    (submitAll g (correctRun n)).totalTime = g.totalTime := by
  induction n generalizing g with
  | zero => simp [correctRun, submitAll]
  | succ m ih =>
    have hrun : correctRun (m + 1) = ⟨1, 1, 0⟩ :: correctRun m := rfl
    rw [hrun, submitAll_cons]
    obtain ⟨s1, s2, s3, s4⟩ := ih (checkAnswer g 1 1 0)
    rw [s1, s2, s3, s4, checkAnswer_score, checkAnswer_streak, checkAnswer_totalAttempts,
      checkAnswer_totalTime]
    rw [if_pos rfl, if_pos rfl]
    push_cast
    refine ⟨by ring, by ring, by ring, by ring⟩

theorem fires_at_fifteen (g : GameState)
    (hscore : g.score = 15) (hatt : g.totalAttempts = 15) :
    "accuracy100_15" ∈ (checkAchievements g initAchievements).1 := by
  have hratio : (g.score : Rat) / (g.totalAttempts : Rat) * 100 = 100 := by
    rw [hscore, hatt]
    norm_num
  have hfire : accuracyFires g ⟨"accuracy100_15", 100, 15, false⟩ = true := by
    have h1 : (g.totalAttempts == (15 : Int)) = true := by
      rw [hatt]
      rfl
    have h2 : ((g.score : Rat) / (g.totalAttempts : Rat) * 100 == (100 : Rat)) = true :=
      beq_iff_eq.mpr hratio
    simp [accuracyFires, h1, h2]
  simp [checkAchievements, initAchievements, hfire]

/-- C1: refuted by the code — `awardAchievement` never sets `awarded`,
so the accuracy achievement is never latched: the achievement records
are returned unchanged by every `checkAchievements` call, and in a
session that runs 15 correct answers (firing `accuracy100_15`), then a
session reset (as every mode toggle performs), then 15 more correct
answers, the same accuracy achievement fires a second time. -/
theorem accuracy_achievement_never_latched :
    (∀ (g : GameState) (a : Achievements), (checkAchievements g a).2 = a) ∧
    "accuracy100_15" ∈ step15.2 ∧
    step15.1.2 = initAchievements ∧
    (step15.1.2.accuracy.map (·.awarded)) = [false] ∧
    "accuracy100_15" ∈ step30.2 := by
  have hphase1 : phase1 = (submitAll initGameState (correctRun 14), initAchievements) :=
    submitStepsState_eq ..
  obtain ⟨a1, a2, a3, a4⟩ := submitAll_correctRun 14 initGameState
  have hinit : initGameState.score = 0 ∧ initGameState.streak = 0 ∧
      initGameState.totalAttempts = 0 := ⟨rfl, rfl, rfl⟩
  have g15 := checkAnswer (submitAll initGameState (correctRun 14)) 1 1 0
  have h15score : (checkAnswer (submitAll initGameState (correctRun 14)) 1 1 0).score = 15 := by
    rw [checkAnswer_score, if_pos rfl, a1, hinit.1]
    norm_num
  have h15att : (checkAnswer (submitAll initGameState (correctRun 14)) 1 1 0).totalAttempts
      = 15 := by
    rw [checkAnswer_totalAttempts, a3, hinit.2.2]
    norm_num
  have hstep15 : step15 = ((checkAnswer (submitAll initGameState (correctRun 14)) 1 1 0,
      initAchievements),
      (checkAchievements (checkAnswer (submitAll initGameState (correctRun 14)) 1 1 0)
        initAchievements).1) := by
    show submitStep phase1 ⟨1, 1, 0⟩ = _
    rw [hphase1]
    simp [submitStep, checkAchievements_no_mutation]
  refine ⟨checkAchievements_no_mutation, ?_, ?_, ?_, ?_⟩
  · rw [hstep15]
    exact fires_at_fifteen _ h15score h15att
  · rw [hstep15]
  · rw [hstep15]
    rfl
  · -- second run after the reset
    have hphase2 : phase2 = (submitAll (resetGame step15.1.1) (correctRun 14),
        initAchievements) := by
      show submitStepsState (resetGame step15.1.1, step15.1.2) (correctRun 14) = _
      rw [hstep15]
      exact submitStepsState_eq ..
    obtain ⟨b1, b2, b3, b4⟩ := submitAll_correctRun 14 (resetGame step15.1.1)
    have hr : (resetGame step15.1.1).score = 0 ∧ (resetGame step15.1.1).streak = 0 ∧
        (resetGame step15.1.1).totalAttempts = 0 := ⟨rfl, rfl, rfl⟩
    have h30score : (checkAnswer (submitAll (resetGame step15.1.1) (correctRun 14)) 1 1 0).score
        = 15 := by
      rw [checkAnswer_score, if_pos rfl, b1, hr.1]
      norm_num
    have h30att : (checkAnswer (submitAll (resetGame step15.1.1)
        (correctRun 14)) 1 1 0).totalAttempts = 15 := by
      rw [checkAnswer_totalAttempts, b3, hr.2.2]
      norm_num
    have hstep30 : step30.2 =
        (checkAchievements (checkAnswer (submitAll (resetGame step15.1.1) (correctRun 14)) 1 1 0)
          initAchievements).1 := by
      show (submitStep phase2 ⟨1, 1, 0⟩).2 = _
      rw [hphase2]
      simp [submitStep]
    rw [hstep30]
    exact fires_at_fifteen _ h30score h30att

/-- Counterexample to C2 as stated: with the malformed persisted text
`oops`, both callers surface the parse failure; the leaderboard page
caller does not recover to the empty five-placeholder display. -/
theorem malformed_leaderboard_counterexample :
    displayLeaderboard { emptyStorage with leaderboard := some "oops" } =
      Except.error parseErrMsg ∧
    updateLeaderboard "Ann" 3 { emptyStorage with leaderboard := some "oops" } =
      Except.error parseErrMsg ∧
    ¬ displayLeaderboard { emptyStorage with leaderboard := some "oops" } =
      Except.ok (List.replicate 5 ("---", "---")) := by
  refine ⟨rfl, rfl, ?_⟩
  intro h
  exact Except.noConfusion (Eq.trans (Eq.symm (rfl :
    displayLeaderboard { emptyStorage with leaderboard := some "oops" } =
      Except.error parseErrMsg)) h)

/-- C2 (amended): a missing or empty persisted leaderboard loads as the
empty collection and both callers behave normally, but a malformed
persisted text makes `load()` surface a parse failure that propagates
uncaught out of both callers (`displayLeaderboard` and
`updateLeaderboard`); the callers do not recover by treating it as an
empty leaderboard. -/
theorem malformed_leaderboard_propagates :
    (∀ s : Storage, s.leaderboard = none ∨ s.leaderboard = some "" →
      displayLeaderboard s = Except.ok (List.replicate 5 ("---", "---")) ∧
      ∀ (nm : String) (sc : Int), ∃ s2, updateLeaderboard nm sc s = Except.ok s2) ∧
    (∀ (s : Storage) (e : String), loadLeaderboard s.leaderboard = Except.error e →
      displayLeaderboard s = Except.error e ∧
      ∀ (nm : String) (sc : Int), updateLeaderboard nm sc s = Except.error e) := by
  constructor
  · intro s hs
    have hload : loadLeaderboard s.leaderboard = Except.ok [] := by
      rcases hs with h | h <;> rw [h] <;> rfl
    constructor
    · simp only [displayLeaderboard]
      rw [hload]
      rfl
    · intro nm sc
      simp only [updateLeaderboard]
      rw [hload]
      exact ⟨_, rfl⟩
  · intro s e he
    constructor
    · simp only [displayLeaderboard]
      rw [he]
      rfl
    · intro nm sc
      simp only [updateLeaderboard]
      rw [he]
      rfl

/-- Witness for C2 (amended): the empty store displays five
placeholders; the malformed text `x` makes both callers fail. -/
theorem malformed_leaderboard_propagates_witness :
    displayLeaderboard emptyStorage = Except.ok (List.replicate 5 ("---", "---")) ∧
    displayLeaderboard { emptyStorage with leaderboard := some "x" } =
      Except.error parseErrMsg ∧
    updateLeaderboard "Ann" 3 { emptyStorage with leaderboard := some "x" } =
      Except.error parseErrMsg := by
  have h1 := (malformed_leaderboard_propagates.1 emptyStorage (Or.inl rfl)).1
  have h2 := malformed_leaderboard_propagates.2
    { emptyStorage with leaderboard := some "x" } parseErrMsg rfl
  exact ⟨h1, h2.1, h2.2 "Ann" 3⟩

/-! ### Stable-sort lemmas for the leaderboard -/

theorem insertLate_take (k : Nat) (x : LBEntry) (l : List LBEntry) :
    (insertLate x (l.take k)).take k = (insertLate x l).take k := by
  induction l generalizing k with
  | nil => simp
  | cons y ys ih =>
    cases k with
    | zero => simp
    | succ k2 =>
      simp only [List.take_succ_cons, insertLate]
      split_ifs with h
      · simp only [List.take_succ_cons]
        rw [ih k2]
      · simp only [List.take_succ_cons, List.take_take]
        cases k2 with
        | zero => simp
        | succ k3 =>
          simp only [List.take_succ_cons]
          congr 1
          simp [List.take_take]

theorem insertEntry_insertLate_comm (e x : LBEntry) (l : List LBEntry) :
    insertEntry e (insertLate x l) = insertLate x (insertEntry e l) := by
  induction l with
  | nil =>
    simp only [insertLate, insertEntry]
    split_ifs with h1 h2 h2 <;> first | rfl | omega
  | cons z zs ih =>
    by_cases hP : e.score < z.score <;> by_cases hQ : x.score ≤ z.score
    · simp only [insertLate, insertEntry, if_pos hP, if_pos hQ]
      rw [← ih]
    · simp only [insertLate, insertEntry, if_pos hP, if_neg hQ]
      have hxz : z.score < x.score := by omega
      have hex : e.score < x.score := by omega
      simp only [insertEntry, if_pos hex, if_pos hP]
    · simp only [insertLate, insertEntry, if_neg hP, if_pos hQ]
      have hxe : x.score ≤ e.score := by omega
      simp only [insertLate, if_pos hxe, if_pos hQ]
    · simp only [insertLate, insertEntry, if_neg hP, if_neg hQ]
      by_cases hex : e.score < x.score
      · have hxe : ¬ x.score ≤ e.score := by omega
        simp only [insertEntry, insertLate, if_pos hex, if_neg hxe, if_neg hP]
      · have hxe : x.score ≤ e.score := by omega
        simp only [insertEntry, insertLate, if_neg hex, if_pos hxe, if_neg hQ]

theorem sortDesc_append_singleton (l : List LBEntry) (x : LBEntry) :
    sortDesc (l ++ [x]) = insertLate x (sortDesc l) := by
  induction l with
  | nil => rfl
  | cons y ys ih =>
    show insertEntry y (sortDesc (ys ++ [x])) = insertLate x (insertEntry y (sortDesc ys))
    rw [ih, insertEntry_insertLate_comm]

theorem mem_insertEntry (y x : LBEntry) (l : List LBEntry) :
    y ∈ insertEntry x l ↔ y = x ∨ y ∈ l := by
  induction l with
  | nil => simp [insertEntry]
  | cons z zs ih =>
    simp only [insertEntry]
    split_ifs with h
    · simp only [List.mem_cons, ih]
      tauto
    · simp only [List.mem_cons]

theorem insertEntry_pairwise (x : LBEntry) (l : List LBEntry)
    (h : List.Pairwise (fun a b => b.score ≤ a.score) l) :
    List.Pairwise (fun a b => b.score ≤ a.score) (insertEntry x l) := by
  induction l with
  | nil => simp [insertEntry]
  | cons z zs ih =>
    obtain ⟨hz, hzs⟩ := List.pairwise_cons.mp h
    simp only [insertEntry]
    split_ifs with hlt
    · refine List.pairwise_cons.mpr ⟨?_, ih hzs⟩
      intro b hb
      rcases (mem_insertEntry b x zs).mp hb with rfl | hb2
      · omega
      · exact hz b hb2
    · refine List.pairwise_cons.mpr ⟨?_, h⟩
      intro b hb
      rcases List.mem_cons.mp hb with rfl | hb2
      · omega
      · have := hz b hb2
        omega

theorem sortDesc_pairwise (l : List LBEntry) :
    List.Pairwise (fun a b => b.score ≤ a.score) (sortDesc l) := by
  induction l with
  | nil => simp [sortDesc]
  | cons x xs ih => exact insertEntry_pairwise x (sortDesc xs) ih

theorem insertEntry_of_head_le (x : LBEntry) (l : List LBEntry)
    (h : ∀ y ∈ l, y.score ≤ x.score) :
    insertEntry x l = x :: l := by
  cases l with
  | nil => rfl
  | cons z zs =>
    have hz : z.score ≤ x.score := h z (List.mem_cons_self z zs)
    simp only [insertEntry, if_neg (by omega : ¬ x.score < z.score)]

theorem sortDesc_of_pairwise (l : List LBEntry)
    (h : List.Pairwise (fun a b => b.score ≤ a.score) l) :
    sortDesc l = l := by
  induction l with
  | nil => rfl
  | cons x xs ih =>
    obtain ⟨hx, hxs⟩ := List.pairwise_cons.mp h
    show insertEntry x (sortDesc xs) = x :: xs
    rw [ih hxs]
    exact insertEntry_of_head_le x xs hx

theorem take5_sortDesc_step (acc : List LBEntry) (x : LBEntry) :
    (sortDesc ((sortDesc acc).take 5 ++ [x])).take 5 =
      (sortDesc (acc ++ [x])).take 5 := by
  rw [sortDesc_append_singleton, sortDesc_append_singleton]
  have hsorted : List.Pairwise (fun a b => b.score ≤ a.score) ((sortDesc acc).take 5) :=
    (sortDesc_pairwise acc).sublist (List.take_sublist 5 _)
  rw [sortDesc_of_pairwise _ hsorted]
  exact insertLate_take 5 x (sortDesc acc)

theorem insertEntry_length (x : LBEntry) (l : List LBEntry) :
    (insertEntry x l).length = l.length + 1 := by
  induction l with
  | nil => rfl
  | cons z zs ih =>
    simp only [insertEntry]
    split_ifs with h
    · simp [ih]
    · simp

theorem sortDesc_length (l : List LBEntry) : (sortDesc l).length = l.length := by
  induction l with
  | nil => rfl
  | cons x xs ih =>
    show (insertEntry x (sortDesc xs)).length = xs.length + 1
    rw [insertEntry_length, ih]

theorem filterE_cons_pos (p : LBEntry → Bool) (a : LBEntry) (l : List LBEntry)
    (h : p a = true) : (a :: l).filter p = a :: l.filter p := by
  simp [List.filter_cons, h]

theorem filterE_cons_neg (p : LBEntry → Bool) (a : LBEntry) (l : List LBEntry)
    (h : p a = false) : (a :: l).filter p = l.filter p := by
  simp [List.filter_cons, h]

theorem filter_insertEntry_self (x : LBEntry) (l : List LBEntry) :
    (insertEntry x l).filter (fun e => e.score == x.score) =
      x :: l.filter (fun e => e.score == x.score) := by
  induction l with
  | nil => simp [insertEntry]
  | cons z zs ih =>
    simp only [insertEntry]
    split_ifs with h
    · have hz : (z.score == x.score) = false := by
        rw [beq_eq_false_iff_ne]
        omega
      rw [filterE_cons_neg _ _ _ hz, filterE_cons_neg _ _ _ hz, ih]
    · rw [filterE_cons_pos (fun e => e.score == x.score) x (z :: zs)
        (beq_self_eq_true x.score)]

theorem filter_insertEntry_other (x : LBEntry) (sc : Int) (l : List LBEntry)
    (h : x.score ≠ sc) :
    (insertEntry x l).filter (fun e => e.score == sc) =
      l.filter (fun e => e.score == sc) := by
  have hx : (x.score == sc) = false := beq_eq_false_iff_ne.mpr h
  induction l with
  | nil => simp [insertEntry, hx]
  | cons z zs ih =>
    simp only [insertEntry]
    split_ifs with hlt
    · by_cases hzs : (z.score == sc) = true
      · rw [filterE_cons_pos _ _ _ hzs, filterE_cons_pos _ _ _ hzs, ih]
      · have hzf : (z.score == sc) = false := by
          revert hzs
          cases z.score == sc <;> simp
        rw [filterE_cons_neg _ _ _ hzf, filterE_cons_neg _ _ _ hzf, ih]
    · rw [filterE_cons_neg _ _ _ hx]

theorem filter_sortDesc (sc : Int) (l : List LBEntry) :
    (sortDesc l).filter (fun e => e.score == sc) = l.filter (fun e => e.score == sc) := by
  induction l with
  | nil => rfl
  | cons x xs ih =>
    show (insertEntry x (sortDesc xs)).filter (fun e => e.score == sc) = _
    by_cases hx : x.score = sc
    · subst hx
      rw [filter_insertEntry_self, ih]
      simp [List.filter_cons]
    · rw [filter_insertEntry_other x sc _ hx, ih]
      simp [List.filter_cons, beq_eq_false_iff_ne.mpr hx]

theorem filter_take_eq_take_filter (p : LBEntry → Bool) (k : Nat) (l : List LBEntry) :
    ∃ m, (l.take k).filter p = (l.filter p).take m := by
  induction l generalizing k with
  | nil => exact ⟨0, by simp⟩
  | cons x xs ih =>
    cases k with
    | zero => exact ⟨0, by simp⟩
    | succ k2 =>
      obtain ⟨m, hm⟩ := ih k2
      by_cases hp : p x
      · refine ⟨m + 1, ?_⟩
        simp [List.take_succ_cons, List.filter_cons, hp, hm]
      · refine ⟨m, ?_⟩
        simp [List.take_succ_cons, List.filter_cons, hp, hm]

theorem map_score_insertEntry (x : LBEntry) (l : List LBEntry) :
    (insertEntry x l).map (fun e => e.score) =
      insertScore x.score (l.map (fun e => e.score)) := by
  induction l with
  | nil => rfl
  | cons z zs ih =>
    simp only [insertEntry, insertScore, List.map_cons]
    split_ifs with h
    · simp [ih]
    · simp

theorem map_score_sortDesc (l : List LBEntry) :
    (sortDesc l).map (fun e => e.score) = sortScoresDesc (l.map (fun e => e.score)) := by
  induction l with
  | nil => rfl
  | cons x xs ih =>
    show (insertEntry x (sortDesc xs)).map (fun e => e.score) = _
    rw [map_score_insertEntry, ih]
    rfl

theorem insertScore_perm (s : Int) (l : List Int) : (insertScore s l).Perm (s :: l) := by
  induction l with
  | nil => rfl
  | cons z zs ih =>
    simp only [insertScore]
    split_ifs with h
    · exact ((ih.cons z).trans (List.Perm.swap s z zs))
    · rfl

theorem sortScoresDesc_perm (l : List Int) : (sortScoresDesc l).Perm l := by
  induction l with
  | nil => rfl
  | cons x xs ih =>
    show (insertScore x (sortScoresDesc xs)).Perm (x :: xs)
    exact (insertScore_perm x (sortScoresDesc xs)).trans (ih.cons x)

theorem insertScore_pairwise (s : Int) (l : List Int)
    (h : List.Pairwise (fun a b => b ≤ a) l) :
    List.Pairwise (fun a b => b ≤ a) (insertScore s l) := by
  induction l with
  | nil => simp [insertScore]
  | cons z zs ih =>
    obtain ⟨hz, hzs⟩ := List.pairwise_cons.mp h
    simp only [insertScore]
    split_ifs with hlt
    · refine List.pairwise_cons.mpr ⟨?_, ih hzs⟩
      intro b hb
      have := (insertScore_perm s zs).mem_iff.mp hb
      rcases List.mem_cons.mp this with rfl | hb2
      · omega
      · exact hz b hb2
    · refine List.pairwise_cons.mpr ⟨?_, h⟩
      intro b hb
      rcases List.mem_cons.mp hb with rfl | hb2
      · omega
      · have := hz b hb2
        omega

theorem sortScoresDesc_pairwise (l : List Int) :
    List.Pairwise (fun a b => b ≤ a) (sortScoresDesc l) := by
  induction l with
  | nil => simp [sortScoresDesc]
  | cons x xs ih => exact insertScore_pairwise x (sortScoresDesc xs) ih

/-! ### Round trip of the persisted JSON text -/

theorem digit_facts (r : Nat) (h : r < 10) :
    isDigitChar (digitToChar r) = true ∧ charToDigit (digitToChar r) = r := by
  interval_cases r <;> exact ⟨by decide, by decide⟩

theorem digitsVal_append_singleton (xs : List Char) (c : Char) :
    digitsVal (xs ++ [c]) = 10 * digitsVal xs + charToDigit c := by
  simp only [digitsVal, List.foldl_append, List.foldl_cons, List.foldl_nil]

theorem natCharsAux_spec (fuel : Nat) :
    ∀ n, n < fuel →
      natCharsAux fuel n ≠ [] ∧
      (∀ ch ∈ natCharsAux fuel n, isDigitChar ch = true) ∧
      digitsVal (natCharsAux fuel n) = n := by
  induction fuel with
  | zero =>
    intro n h
    omega
  | succ f ih =>
    intro n h
    by_cases h10 : n < 10
    · simp only [natCharsAux, if_pos h10]
      refine ⟨by simp, ?_, ?_⟩
      · intro ch hch
        simp only [List.mem_singleton] at hch
        subst hch
        exact (digit_facts n h10).1
      · simp only [digitsVal, List.foldl_cons, List.foldl_nil]
        rw [(digit_facts n h10).2]
        omega
    · have hdiv : n / 10 < f := by
        have h1 : n / 10 < n := Nat.div_lt_self (by omega) (by omega)
        omega
      obtain ⟨ine, idig, ival⟩ := ih (n / 10) hdiv
      have hmod : n % 10 < 10 := Nat.mod_lt _ (by omega)
      simp only [natCharsAux, if_neg h10]
      refine ⟨by simp, ?_, ?_⟩
      · intro ch hch
        rcases List.mem_append.mp hch with hm | hm
        · exact idig ch hm
        · simp only [List.mem_singleton] at hm
          subst hm
          exact (digit_facts _ hmod).1
      · rw [digitsVal_append_singleton, ival, (digit_facts _ hmod).2]
        omega

theorem natChars_spec (n : Nat) :
    natChars n ≠ [] ∧ (∀ ch ∈ natChars n, isDigitChar ch = true) ∧
    digitsVal (natChars n) = n :=
  natCharsAux_spec (n + 1) n (Nat.lt_succ_self n)

theorem takeWhile_dropWhile_append (p : Char → Bool) (ds rest : List Char)
    (hall : ∀ c ∈ ds, p c = true)
    (hrest : ∀ c cs, rest = c :: cs → p c = false) :
    (ds ++ rest).takeWhile p = ds ∧ (ds ++ rest).dropWhile p = rest := by
  induction ds with
  | nil =>
    cases rest with
    | nil => exact ⟨rfl, rfl⟩
    | cons c cs =>
      have hc := hrest c cs rfl
      simp [List.takeWhile_cons, List.dropWhile_cons, hc]
  | cons d ds ih =>
    have hd := hall d (List.mem_cons_self ..)
    obtain ⟨h1, h2⟩ := ih (fun c hc => hall c (List.mem_cons_of_mem _ hc))
    simp [List.takeWhile_cons, List.dropWhile_cons, hd, h1, h2]

theorem parseNat_natChars (n : Nat) (rest : List Char) (h : headNotDigit rest) :
    parseNat (natChars n ++ rest) = some (n, rest) := by
  obtain ⟨hne, hdig, hval⟩ := natChars_spec n
  have hrest : ∀ c cs, rest = c :: cs → isDigitChar c = false := by
    intro c cs hcs
    rw [hcs] at h
    exact h
  obtain ⟨ht, hd⟩ := takeWhile_dropWhile_append isDigitChar (natChars n) rest hdig hrest
  simp only [parseNat, ht, hd]
  rw [if_neg hne, hval]

theorem parseInt_intChars (i : Int) (rest : List Char) (h : headNotDigit rest) :
    parseInt (intChars i ++ rest) = some (i, rest) := by
  by_cases hneg : i < 0
  · simp only [intChars, if_pos hneg, List.cons_append, parseInt]
    simp only [if_true]
    rw [parseNat_natChars _ _ h]
    have habs : -((i.natAbs : Nat) : Int) = i := by omega
    show some (-((i.natAbs : Nat) : Int), rest) = some (i, rest)
    rw [habs]
  · simp only [intChars, if_neg hneg]
    obtain ⟨hne, hdig, -⟩ := natChars_spec i.toNat
    cases hc : natChars i.toNat with
    | nil => exact absurd hc hne
    | cons c cs =>
      have hcdig : isDigitChar c = true := by
        refine hdig c ?_
        rw [hc]
        exact List.mem_cons_self ..
      have hcne : ¬ c = '-' := by
        intro hdash
        rw [hdash] at hcdig
        exact absurd hcdig (by decide)
      rw [List.cons_append]
      simp only [parseInt]
      rw [if_neg hcne, ← List.cons_append, ← hc, parseNat_natChars _ _ h]
      have htn : ((i.toNat : Nat) : Int) = i := Int.toNat_of_nonneg (by omega)
      simp [htn]

theorem escapeChars_cons (c : Char) (s : List Char) :
    escapeChars (c :: s) = escChar c ++ escapeChars s := by
  simp [escapeChars]

theorem scanName_escape (nm rest : List Char) :
    scanName (escapeChars nm ++ '"' :: rest) = some (nm, rest) := by
  induction nm with
  | nil =>
    show scanName ('"' :: rest) = some ([], rest)
    rfl
  | cons c cs ih =>
    rw [escapeChars_cons]
    by_cases hc : c = '"' ∨ c = '\\'
    · have hesc : escChar c = ['\\', c] := by
        simp [escChar, hc]
      rw [hesc]
      show (scanName (escapeChars cs ++ '"' :: rest)).map (fun p => (c :: p.1, p.2)) =
        some (c :: cs, rest)
      rw [ih]
      rfl
    · push_neg at hc
      have hesc : escChar c = [c] := by
        simp [escChar, hc.1, hc.2]
      rw [hesc, List.singleton_append]
      simp [scanName, hc.1, hc.2, ih]

theorem dropLit_append (pre cs : List Char) : dropLit pre (pre ++ cs) = some cs := by
  induction pre with
  | nil => rfl
  | cons p ps ih => simp [dropLit, ih]

theorem parseEntry_entryChars (e : LBEntry) (rest : List Char) :
    parseEntry (entryChars e ++ rest) = some (e, rest) := by
  have hassoc : entryChars e ++ rest =
      nameLit ++ (escapeChars e.name.data ++
        '"' :: (scoreLit ++ (intChars e.score ++ '\x7d' :: rest))) := by
    simp [entryChars, List.append_assoc]
  rw [hassoc]
  simp only [parseEntry, Option.bind_eq_bind]
  rw [dropLit_append]
  simp only [Option.some_bind]
  rw [scanName_escape]
  simp only [Option.some_bind]
  rw [dropLit_append]
  simp only [Option.some_bind]
  rw [parseInt_intChars e.score ('\x7d' :: rest) rfl]
  simp only [Option.some_bind]
  rfl

theorem bodyChars_cons_cons (e e2 : LBEntry) (es : List LBEntry) :
    bodyChars (e :: e2 :: es) = entryChars e ++ ',' :: bodyChars (e2 :: es) := rfl

theorem bodyChars_length (l : List LBEntry) : l.length ≤ (bodyChars l).length := by
  induction l with
  | nil => simp [bodyChars]
  | cons e es ih =>
    cases es with
    | nil =>
      show 1 ≤ (entryChars e).length
      simp [entryChars, nameLit]
    | cons e2 es2 =>
      rw [bodyChars_cons_cons]
      have hE : 1 ≤ (entryChars e).length := by
        simp [entryChars, nameLit]
      have hih : (e2 :: es2).length ≤ (bodyChars (e2 :: es2)).length := ih
      simp only [List.length_cons] at hih
      simp only [List.length_cons, List.length_append]
      omega

theorem parseItems_bodyChars :
    ∀ (l : List LBEntry) (fuel : Nat), l ≠ [] → l.length ≤ fuel →
      parseItems fuel (bodyChars l ++ [']']) = some (l, []) := by
  intro l
  induction l with
  | nil =>
    intro fuel h
    exact absurd rfl h
  | cons e es ih =>
    intro fuel _hne hlen
    cases fuel with
    | zero => simp at hlen
    | succ f =>
      cases es with
      | nil =>
        show parseItems (f + 1) (entryChars e ++ [']']) = some ([e], [])
        simp only [parseItems, Option.bind_eq_bind]
        rw [parseEntry_entryChars]
        rfl
      | cons e2 es2 =>
        rw [bodyChars_cons_cons]
        have hassoc : (entryChars e ++ ',' :: bodyChars (e2 :: es2)) ++ [']'] =
            entryChars e ++ ',' :: (bodyChars (e2 :: es2) ++ [']']) := by
          simp [List.append_assoc]
        rw [hassoc]
        simp only [parseItems, Option.bind_eq_bind]
        rw [parseEntry_entryChars]
        simp only [Option.some_bind]
        have hlen2 : (e2 :: es2).length ≤ f := by
          simp only [List.length_cons] at hlen ⊢
          omega
        rw [ih f (by simp) hlen2]
        rfl

theorem jsonParseLB_stringifyLB (l : List LBEntry) :
    jsonParseLB (stringifyLB l) = Except.ok l := by
  cases l with
  | nil => rfl
  | cons e es =>
    have hbody : bodyChars (e :: es) ≠ [] := by
      cases es with
      | nil =>
        show entryChars e ≠ []
        simp [entryChars, nameLit]
      | cons e2 es2 =>
        rw [bodyChars_cons_cons]
        simp [entryChars, nameLit]
    have hred : jsonParseLB (stringifyLB (e :: es)) =
        (if bodyChars (e :: es) ++ [']'] = [']'] then Except.ok []
         else
           match parseItems (bodyChars (e :: es) ++ [']']).length
               (bodyChars (e :: es) ++ [']']) with
           | some (es2, []) => Except.ok es2
           | _ => Except.error parseErrMsg) := rfl
    rw [hred]
    have hne2 : ¬ (bodyChars (e :: es) ++ [']'] = [']']) := by
      intro heq
      have hlen0 := congrArg List.length heq
      simp only [List.length_append, List.length_singleton] at hlen0
      have hz : (bodyChars (e :: es)).length = 0 := by omega
      exact hbody (List.eq_nil_of_length_eq_zero hz)
    rw [if_neg hne2]
    have hfuel : (e :: es).length ≤ (bodyChars (e :: es) ++ [']']).length := by
      have := bodyChars_length (e :: es)
      simp only [List.length_append, List.length_singleton]
      omega
    rw [parseItems_bodyChars (e :: es) _ (by simp) hfuel]

theorem stringifyLB_ne_empty (l : List LBEntry) : stringifyLB l ≠ "" := by
  intro h
  have hdata : ('[' :: (bodyChars l ++ [']'])) = ([] : List Char) := by
    have := congrArg String.data h
    exact this
  simp at hdata

theorem loadLeaderboard_stringify (l : List LBEntry) :
    loadLeaderboard (some (stringifyLB l)) = Except.ok l := by
  simp only [loadLeaderboard]
  rw [if_neg (stringifyLB_ne_empty l)]
  exact jsonParseLB_stringifyLB l

theorem updateLeaderboard_step (nm : String) (sc : Int) (s : Storage) (cur : List LBEntry)
    (hload : loadLeaderboard s.leaderboard = Except.ok cur) :
    updateLeaderboard nm sc s =
      Except.ok
        (withLB s (stringifyLB ((sortDesc (cur ++ [⟨resolveName s nm, sc⟩])).take 5))) := by
  simp only [updateLeaderboard]
  rw [hload]
  rfl

theorem runRecords_invariant (ps : List (String × Int)) :
    ∀ (s : Storage) (acc : List LBEntry),
      s.currentPlayer = none →
      loadLeaderboard s.leaderboard = Except.ok ((sortDesc acc).take 5) →
      ∃ s2 : Storage,
        runRecords ps s = Except.ok s2 ∧
        s2.currentPlayer = none ∧
        loadLeaderboard s2.leaderboard =
          Except.ok ((sortDesc (acc ++ recordedEntries ps)).take 5) := by
  induction ps with
  | nil =>
    intro s acc hcp hload
    refine ⟨s, rfl, hcp, ?_⟩
    simpa [recordedEntries] using hload
  | cons p ps ih =>
    intro s acc hcp hload
    have hname : resolveName s p.1 = (if p.1 = "" then "Anonymous" else p.1) := by
      simp [resolveName, hcp]
    set e1 : LBEntry := ⟨resolveName s p.1, p.2⟩ with he1
    set str1 : String := stringifyLB ((sortDesc ((sortDesc acc).take 5 ++ [e1])).take 5)
      with hstr1
    have hstep := updateLeaderboard_step p.1 p.2 s _ hload
    have hcp' : (withLB s str1).currentPlayer = none := hcp
    have hload' : loadLeaderboard (withLB s str1).leaderboard =
        Except.ok ((sortDesc (acc ++ [e1])).take 5) := by
      show loadLeaderboard (some str1) = _
      rw [hstr1, loadLeaderboard_stringify, take5_sortDesc_step]
    obtain ⟨s2, hrun, hcp2, hload2⟩ := ih _ (acc ++ [e1]) hcp' hload'
    refine ⟨s2, ?_, hcp2, ?_⟩
    · show List.foldlM (fun s p => updateLeaderboard p.1 p.2 s) s (p :: ps) = Except.ok s2
      rw [List.foldlM_cons, hstep]
      exact hrun
    · rw [hload2]
      have hrec : recordedEntries (p :: ps) = e1 :: recordedEntries ps := by
        rw [he1, hname]
        simp [recordedEntries]
      rw [hrec]
      congr 1
      rw [List.append_assoc]
      rfl

/-- C4: after any sequence of `record(name, score)` calls from the
empty store, the persisted leaderboard parses back as the first five
entries of the stable descending sort of all recorded entries: its
length is `min N 5`, its scores are non-increasing, for every score the
surviving equal-scored entries are an initial segment (in original
insertion order) of all entries recorded with that score, and its score
multiset is exactly the five largest recorded scores (the descending
sort being a permutation of all recorded scores). -/
theorem leaderboard_record_spec :
    ∀ ps : List (String × Int),
      ∃ (stor : Storage) (l : List LBEntry),
        runRecords ps emptyStorage = Except.ok stor ∧
        loadLeaderboard stor.leaderboard = Except.ok l ∧
        l.length = min ps.length 5 ∧
        List.Pairwise (fun a b => b.score ≤ a.score) l ∧
        (∀ sc : Int, ∃ m, l.filter (fun e => e.score == sc) =
          ((recordedEntries ps).filter (fun e => e.score == sc)).take m) ∧
        l.map (fun e => e.score) =
          (sortScoresDesc ((recordedEntries ps).map (fun e => e.score))).take 5 ∧
        (sortScoresDesc ((recordedEntries ps).map (fun e => e.score))).Perm
          ((recordedEntries ps).map (fun e => e.score)) ∧
        List.Pairwise (fun a b : Int => b ≤ a)
          (sortScoresDesc ((recordedEntries ps).map (fun e => e.score))) := by
  intro ps
  have hload0 : loadLeaderboard emptyStorage.leaderboard =
      Except.ok ((sortDesc []).take 5) := rfl
  obtain ⟨stor, hrun, -, hload⟩ := runRecords_invariant ps emptyStorage [] rfl hload0
  rw [List.nil_append] at hload
  refine ⟨stor, (sortDesc (recordedEntries ps)).take 5, hrun, hload, ?_, ?_, ?_, ?_,
    sortScoresDesc_perm _, sortScoresDesc_pairwise _⟩
  · rw [List.length_take, sortDesc_length]
    have hlen : (recordedEntries ps).length = ps.length := by
      simp [recordedEntries]
    rw [hlen, Nat.min_comm]
  · exact (sortDesc_pairwise _).sublist (List.take_sublist _ _)
  · intro sc
    obtain ⟨m, hm⟩ :=
      filter_take_eq_take_filter (fun e => e.score == sc) 5 (sortDesc (recordedEntries ps))
    exact ⟨m, by rw [hm, filter_sortDesc]⟩
  · rw [List.map_take, map_score_sortDesc]

end SillySums
